import Mathlib

/-!
Shallow embedding of the core of the rv6 kernel (`vm.rs`, `file.rs`,
`syscall.rs`, `virtio/virtio_disk.rs`, `fs/lfs/mod.rs`) together with
proofs about its specification.

Conventions of the embedding:
* machine words are `Nat`; physical pages are identified by a page id `p`
  occupying byte addresses `[p * PGSIZE, (p + 1) * PGSIZE)`;
* Rust `panic!` / failed `assert!` / `expect` are modelled by
  `Except.error msg`; the recoverable `Option` / `Result` failures of the
  source are modelled by `Option` / `Bool` inside `Except.ok`;
* stateful functions thread an explicit `MState` (allocator free list,
  page-table pages, physical byte memory);
* loops are modelled with an explicit fuel argument that is always
  sufficient at the call sites used by the theorems.
-/

namespace Rv

/-- Bytes per page (4096), from the spec (the `addr.rs` module is not part
of the excerpted sources). -/
def PGSIZE : Nat := 4096

/-- One beyond the largest virtual address of the Sv39 scheme,
`MAXVA = 1 << 39`. -/
def MAXVA : Nat := 2 ^ 39

/-- Modelled from the spec: the memory-layout module is not part of the
sources; the trampoline page sits at the top of the address space. -/
def TRAMPOLINE : Nat := MAXVA - PGSIZE

/-- Modelled from the spec: the memory-layout module is not part of the
sources; the trap frame is mapped one page below the trampoline. -/
def TRAPFRAME : Nat := TRAMPOLINE - PGSIZE

/-- Round an address down to its page boundary (`pgrounddown`). -/
def pgrounddown (a : Nat) : Nat := a / PGSIZE * PGSIZE

/-- Round an address up to the next page boundary (`pgroundup`). -/
def pgroundup (a : Nat) : Nat := (a + PGSIZE - 1) / PGSIZE * PGSIZE

/-- The 9-bit index of virtual address `va` at page-table level `level`,
following the Sv39 split documented in `PageTable::get_mut`. -/
def ptIndex (level : Nat) (va : Nat) : Nat := (va >>> (12 + 9 * level)) % 512

/-- Leaf permission bits, mirroring `AccessFlags`/`PteFlags`. -/
structure PteFlags where
  r : Bool
  w : Bool
  x : Bool
  u : Bool
deriving DecidableEq

/-- The permissions `R|W|X|U` used for user data pages. -/
def rwxuFlags : PteFlags := ⟨true, true, true, true⟩

/-- A page-table entry, mirroring the fields packed into a 64-bit PTE. -/
structure Pte where
  valid : Bool
  r : Bool
  w : Bool
  x : Bool
  u : Bool
  ppn : Nat
deriving DecidableEq

/-- The all-zero (invalid) entry; `invalidate` resets an entry to this. -/
def Pte.zero : Pte := ⟨false, false, false, false, false, 0⟩

/-- An entry refers to a page-table page iff it is valid with R, W, X clear. -/
def Pte.isTable (p : Pte) : Bool := p.valid && !p.r && !p.w && !p.x

/-- An entry refers to a data page iff it is valid with one of R, W, X set. -/
def Pte.isData (p : Pte) : Bool := p.valid && (p.r || p.w || p.x)

/-- Modelled from the spec: `is_user` of the arch PTE holds for a valid
entry whose U bit is set (copies fail if a page is unmapped or lacks U). -/
def Pte.isUser (p : Pte) : Bool := p.valid && p.u

/-- The physical address an entry refers to (`get_pa`). -/
def Pte.getPa (p : Pte) : Nat := p.ppn * PGSIZE

/-- Make an entry refer to address `pa` with permissions `perm`
(`set_entry`). -/
def Pte.setEntry (pa : Nat) (perm : PteFlags) : Pte :=
  ⟨true, perm.r, perm.w, perm.x, perm.u, pa / PGSIZE⟩

/-- Make an entry refer to the page-table page at address `pa`
(`set_table`): valid with R, W, X (and U) clear. -/
def Pte.setTable (pa : Nat) : Pte := ⟨true, false, false, false, false, pa / PGSIZE⟩

/-- Strip the U bit (`clear_user`). -/
def Pte.clearUser (p : Pte) : Pte := { p with u := false }

/-- The sparse contents of one `RawPageTable`: index (0..511) to entry;
an absent index stands for the all-zero entry of the zeroed page. -/
abbrev RPT : Type := List (Nat × Pte)

/-- Read the `i`-th entry of a raw page table. -/
def rptGet (t : RPT) (i : Nat) : Pte :=
  match List.find? (fun e => e.1 == i) t with
  | some e => e.2
  | none => Pte.zero

/-- Write the `i`-th entry of a raw page table. -/
def rptSet (t : RPT) (i : Nat) (p : Pte) : RPT :=
  (i, p) :: List.filter (fun e => e.1 != i) t

/-- Machine state: the allocator's free list of page ids (`Kmem`), the
allocated page-table pages, and physical byte memory. -/
structure MState where
  free : List Nat
  tables : List (Nat × RPT)
  phys : Nat → Nat

/-- The raw page table stored at page id `id` (the zeroed, empty table if
`id` is not registered). -/
def MState.table (s : MState) (id : Nat) : RPT :=
  match List.find? (fun e => e.1 == id) s.tables with
  | some e => e.2
  | none => []

/-- Register the raw page table at page id `id`. -/
def MState.setTable (s : MState) (id : Nat) (t : RPT) : MState :=
  { s with tables := (id, t) :: List.filter (fun e => e.1 != id) s.tables }

/-- `Kmem::alloc`: pop a page from the free list. -/
def MState.kalloc (s : MState) : Option (Nat × MState) :=
  match s.free with
  | [] => none
  | p :: rest => some (p, { s with free := rest })

/-- `Kmem::free`: push a page onto the free list. -/
def MState.kfree (s : MState) (p : Nat) : MState :=
  { s with free := p :: s.free }

/-- `Page::write_bytes(0)`: zero the bytes of page `p`. -/
def MState.zeroPage (s : MState) (p : Nat) : MState :=
  { s with
    phys := fun a => if p * PGSIZE ≤ a ∧ a < (p + 1) * PGSIZE then 0 else s.phys a }

/-- Write the byte list `bytes` to physical memory starting at `base`. -/
def MState.physWriteList (s : MState) (base : Nat) (bytes : List Nat) : MState :=
  { s with
    phys := fun a =>
      if base ≤ a ∧ a < base + bytes.length then bytes.getD (a - base) 0 else s.phys a }

/-- Read `n` bytes of physical memory starting at `base`. -/
def MState.physReadList (s : MState) (base n : Nat) : List Nat :=
  (List.range n).map (fun i => s.phys (base + i))

/-- `RawPageTable::new`: allocate a page, zero it and use it as an empty
page-table page. Returns the page id. -/
def rawPageTableNew (s : MState) : Option (Nat × MState) :=
  match s.kalloc with
  | none => none
  | some (p, s1) => some (p, ((s1.zeroPage p).setTable p []))

/-- `RawPageTable::get_table_mut`: follow (or, with `useAlloc`, create) the
child page-table page behind entry `index` of the table at `id`. -/
def getTableMut (s : MState) (id index : Nat) (useAlloc : Bool) :
    Option Nat × MState :=
  let pte := rptGet (s.table id) index
  if !pte.valid then
    if useAlloc then
      match rawPageTableNew s with
      | none => (none, s)
      | some (child, s1) =>
        (some child,
          s1.setTable id (rptSet (s1.table id) index (Pte.setTable (child * PGSIZE))))
    else (none, s)
  else if pte.isTable then (some pte.ppn, s) else (none, s)

/-- Location of a PTE: page id of the owning level-0 table and the index
within it. -/
structure Loc where
  tid : Nat
  idx : Nat
deriving DecidableEq

/-- Read the entry at location `l`. -/
def MState.readPte (s : MState) (l : Loc) : Pte := rptGet (s.table l.tid) l.idx

/-- Overwrite the entry at location `l`. -/
def MState.writePte (s : MState) (l : Loc) (p : Pte) : MState :=
  s.setTable l.tid (rptSet (s.table l.tid) l.idx p)

/-- `PageTable::get_mut`: three-level Sv39 walk from the root page-table
page. `Except.error` models the panics (`assert!(va < MAXVA)` and the
`assert!(!pte.is_table())` of `get_entry_mut`). -/
def ptGetMut (root : Nat) (s : MState) (va : Nat) (useAlloc : Bool) :
    Except String (Option Loc × MState) :=
  if MAXVA ≤ va then Except.error "PageTable::get_mut"
  else
    match getTableMut s root (ptIndex 2 va) useAlloc with
    | (none, s1) => Except.ok (none, s1)
    | (some t1, s1) =>
      match getTableMut s1 t1 (ptIndex 1 va) useAlloc with
      | (none, s2) => Except.ok (none, s2)
      | (some t0, s2) =>
        if (rptGet (s2.table t0) (ptIndex 0 va)).isTable then
          Except.error "RawPageTable::get_entry_mut"
        else Except.ok (some ⟨t0, ptIndex 0 va⟩, s2)

/-- `PageTable::insert`: map `pgrounddown va` to `pa` with permissions
`perm`, creating intermediate tables. The Bool is success (`Ok`/`Err`);
inserting over a valid entry panics. -/
def ptInsert (root : Nat) (s : MState) (va pa : Nat) (perm : PteFlags) :
    Except String (Bool × MState) :=
  match ptGetMut root s (pgrounddown va) true with
  | Except.error e => Except.error e
  | Except.ok (none, s1) => Except.ok (false, s1)
  | Except.ok (some l, s1) =>
    if (s1.readPte l).valid then Except.error "PageTable::insert"
    else Except.ok (true, s1.writePte l (Pte.setEntry pa perm))

/-- `PageTable::remove`: invalidate the leaf mapped at `va`, returning its
physical address; panics if the entry is not a data entry. -/
def ptRemove (root : Nat) (s : MState) (va : Nat) :
    Except String (Option Nat × MState) :=
  match ptGetMut root s va false with
  | Except.error e => Except.error e
  | Except.ok (none, s1) => Except.ok (none, s1)
  | Except.ok (some l, s1) =>
    let pte := s1.readPte l
    if !pte.isData then Except.error "PageTable::remove"
    else Except.ok (some pte.getPa, s1.writePte l Pte.zero)

/-- `UserMemory`: the root page-table page and the process size in bytes. -/
structure UserMemory where
  root : Nat
  size : Nat
deriving DecidableEq

/-- `UserMemory::push_page`: map the given page at `pgroundup size` and
grow `size` by one page. The Bool is success; on failure the caller keeps
the page. -/
def pushPage (um : UserMemory) (s : MState) (page : Nat) (perm : PteFlags) :
    Except String (Bool × UserMemory × MState) :=
  match ptInsert um.root s (pgroundup um.size) (page * PGSIZE) perm with
  | Except.error e => Except.error e
  | Except.ok (false, s1) => Except.ok (false, um, s1)
  | Except.ok (true, s1) =>
    Except.ok (true, { um with size := pgroundup um.size + PGSIZE }, s1)

/-- `UserMemory::pop_page`: unmap the most recently appended page and
return its id; `none` iff `size = 0`. A failing removal is the
`expect("pop_page")` panic. -/
def popPage (um : UserMemory) (s : MState) :
    Except String (Option Nat × UserMemory × MState) :=
  if um.size = 0 then Except.ok (none, um, s)
  else
    match ptRemove um.root s (pgroundup um.size - PGSIZE) with
    | Except.error e => Except.error e
    | Except.ok (none, _) => Except.error "pop_page"
    | Except.ok (some pa, s1) =>
      Except.ok (some (pa / PGSIZE), { um with size := pgroundup um.size - PGSIZE }, s1)

/-- The `while` loop of `UserMemory::dealloc`, popping pages while
`pgroundup newsz < pgroundup size`.  The fuel used by `umDealloc` is always
sufficient. -/
def deallocLoop (fuel : Nat) (newsz : Nat) (um : UserMemory) (s : MState) :
    Except String (UserMemory × MState) :=
  match fuel with
  | 0 => Except.ok (um, s)
  | fuel + 1 =>
    if pgroundup newsz < pgroundup um.size then
      match popPage um s with
      | Except.error e => Except.error e
      | Except.ok (none, um1, s1) => deallocLoop fuel newsz um1 s1
      | Except.ok (some page, um1, s1) => deallocLoop fuel newsz um1 (s1.kfree page)
    else Except.ok (um, s)

/-- `UserMemory::dealloc`: shrink to `newsz`, freeing popped pages. -/
def umDealloc (um : UserMemory) (s : MState) (newsz : Nat) :
    Except String (Nat × UserMemory × MState) :=
  if um.size ≤ newsz then Except.ok (um.size, um, s)
  else
    match deallocLoop ((pgroundup um.size - pgroundup newsz) / PGSIZE) newsz um s with
    | Except.error e => Except.error e
    | Except.ok (um1, s1) => Except.ok (newsz, { um1 with size := newsz }, s1)

/-- The `while` loop of `UserMemory::alloc`: allocate a zeroed page and
push it while `pgroundup size < pgroundup newsz`. The Bool is success; on
failure the page in hand has been freed back (`map_err`). -/
def allocLoop (fuel : Nat) (newsz : Nat) (um : UserMemory) (s : MState) :
    Except String (Bool × UserMemory × MState) :=
  match fuel with
  | 0 => Except.ok (true, um, s)
  | fuel + 1 =>
    if pgroundup um.size < pgroundup newsz then
      match s.kalloc with
      | none => Except.ok (false, um, s)
      | some (page, s1) =>
        match pushPage um (s1.zeroPage page) page rwxuFlags with
        | Except.error e => Except.error e
        | Except.ok (false, um1, s2) => Except.ok (false, um1, s2.kfree page)
        | Except.ok (true, um1, s2) => allocLoop fuel newsz um1 s2
    else Except.ok (true, um, s)

/-- `UserMemory::alloc`: grow to `newsz`; on failure the scope guard rolls
back with `dealloc(oldsz)` and `Err` (the `Option Nat`) is returned. -/
def umAlloc (um : UserMemory) (s : MState) (newsz : Nat) :
    Except String (Option Nat × UserMemory × MState) :=
  if newsz ≤ um.size then Except.ok (some um.size, um, s)
  else
    match allocLoop ((pgroundup newsz - pgroundup um.size) / PGSIZE) newsz um s with
    | Except.error e => Except.error e
    | Except.ok (false, um1, s1) =>
      match umDealloc um1 s1 um.size with
      | Except.error e => Except.error e
      | Except.ok (_, um2, s2) => Except.ok (none, um2, s2)
    | Except.ok (true, um1, s1) => Except.ok (some newsz, { um1 with size := newsz }, s1)

/-- `UserMemory::get_slice`: translate a page-aligned user address to the
base physical address of its frame; `none` for `va ≥ TRAPFRAME`, an
unmapped page, or a page that is not user-accessible. -/
def getSlice (um : UserMemory) (s : MState) (va : Nat) : Except String (Option Nat) :=
  if TRAPFRAME ≤ va then Except.ok none
  else
    match ptGetMut um.root s va false with
    | Except.error e => Except.error e
    | Except.ok (none, _) => Except.ok none
    | Except.ok (some l, s1) =>
      let pte := s1.readPte l
      if !pte.isUser then Except.ok none
      else Except.ok (some pte.getPa)

/-- The chunk loop of `UserMemory::copy_out_bytes`. Fuel: at least one
byte is consumed per iteration, so `bytes.length` suffices. -/
def copyOutAux (fuel : Nat) (um : UserMemory) (s : MState) (dst : Nat)
    (bytes : List Nat) : Except String (Option MState) :=
  match fuel with
  | 0 => Except.ok (some s)
  | fuel + 1 =>
    if bytes.length = 0 then Except.ok (some s)
    else
      let va := pgrounddown dst
      let poffset := dst - va
      match getSlice um s va with
      | Except.error e => Except.error e
      | Except.ok none => Except.ok none
      | Except.ok (some base) =>
        let n := min (PGSIZE - poffset) bytes.length
        copyOutAux fuel um (s.physWriteList (base + poffset) (bytes.take n))
          (dst + n) (bytes.drop n)

/-- `UserMemory::copy_out_bytes`. -/
def copyOutBytes (um : UserMemory) (s : MState) (dst : Nat) (bytes : List Nat) :
    Except String (Option MState) :=
  copyOutAux bytes.length um s dst bytes

/-- The chunk loop of `UserMemory::copy_in_bytes`, returning the bytes
read into the destination buffer. -/
def copyInAux (fuel : Nat) (um : UserMemory) (s : MState) (src : Nat) (len : Nat) :
    Except String (Option (List Nat)) :=
  match fuel with
  | 0 => Except.ok (some [])
  | fuel + 1 =>
    if len = 0 then Except.ok (some [])
    else
      let va := pgrounddown src
      let poffset := src - va
      match getSlice um s va with
      | Except.error e => Except.error e
      | Except.ok none => Except.ok none
      | Except.ok (some base) =>
        let n := min (PGSIZE - poffset) len
        match copyInAux fuel um s (src + n) (len - n) with
        | Except.error e => Except.error e
        | Except.ok none => Except.ok none
        | Except.ok (some rest) =>
          Except.ok (some (s.physReadList (base + poffset) n ++ rest))

/-- `UserMemory::copy_in_bytes` into a buffer of length `len`. -/
def copyInBytes (um : UserMemory) (s : MState) (src : Nat) (len : Nat) :
    Except String (Option (List Nat)) :=
  copyInAux len um s src len

/-- The page-aligned virtual addresses visited by the chunk loops of the
copy routines on range `[dst, dst + len)`. -/
def chunkPages (fuel : Nat) (dst len : Nat) : List Nat :=
  match fuel with
  | 0 => []
  | fuel + 1 =>
    if len = 0 then []
    else
      let va := pgrounddown dst
      let n := min (PGSIZE - (dst - va)) len
      va :: chunkPages fuel (dst + n) (len - n)

/-- The page ids of the child page-table pages of the table at `id`, in
index order. -/
def tableChildren (s : MState) (id : Nat) : List Nat :=
  (List.range 512).filterMap (fun i =>
    let p := rptGet (s.table id) i
    if p.isTable then some p.ppn else none)

/-- `RawPageTable::free_walk`: free the child tables recursively, then
the page itself; `depth` is the level of the table (2 for the root). -/
def freeWalk : Nat → MState → Nat → MState
  | 0, s, id => s.kfree id
  | depth + 1, s, id =>
    ((tableChildren s id).foldl (fun acc c => freeWalk depth acc c) s).kfree id

/-- Modelled from the spec: `PageInitImpl::user_page_init` (the arch
module is not in the sources) maps the shared trampoline page (R|X) at
`TRAMPOLINE` and the process trap frame (R|W) at `TRAPFRAME`.
`trampolinePa` is the physical address of the trampoline page. The Bool
is success. -/
def userPageInit (root : Nat) (s : MState) (trapFrame trampolinePa : Nat) :
    Except String (Bool × MState) :=
  match ptInsert root s TRAMPOLINE trampolinePa ⟨true, false, true, false⟩ with
  | Except.error e => Except.error e
  | Except.ok (false, s1) => Except.ok (false, s1)
  | Except.ok (true, s1) =>
    ptInsert root s1 TRAPFRAME trapFrame ⟨true, true, false, false⟩

/-- `UserMemory::new`: allocate the root page-table page, install the
trampoline and trap-frame mappings (freeing the page table again if that
fails), and optionally load an initial image at virtual address 0 with
permissions R|W|X|U. `assert!(src.len() < PGSIZE, "new: more than a
page")` is a modelled panic; on the failure paths after the `UserMemory`
value has been constructed, the `?` operator drops it, running its
panicking destructor (`"UserMemory must never drop."`). -/
def umNew (trapFrame : Nat) (srcOpt : Option (List Nat)) (trampolinePa : Nat)
    (s : MState) : Except String (Option UserMemory × MState) :=
  match rawPageTableNew s with
  | none => Except.ok (none, s)
  | some (root, s1) =>
    match userPageInit root s1 trapFrame trampolinePa with
    | Except.error e => Except.error e
    | Except.ok (false, s2) => Except.ok (none, freeWalk 2 s2 root)
    | Except.ok (true, s2) =>
      match srcOpt with
      | none => Except.ok (some ⟨root, 0⟩, s2)
      | some src =>
        if PGSIZE ≤ src.length then Except.error "new: more than a page"
        else
          match s2.kalloc with
          | none => Except.error "UserMemory must never drop."
          | some (page, s3) =>
            let s4 := (s3.zeroPage page).physWriteList (page * PGSIZE) src
            match pushPage ⟨root, 0⟩ s4 page rwxuFlags with
            | Except.error e => Except.error e
            | Except.ok (false, _, _) => Except.error "UserMemory must never drop."
            | Except.ok (true, um1, s5) => Except.ok (some um1, s5)

/-- Filesystem block size, `BSIZE = 1024` (spec §6; `param.rs` is not part
of the excerpted sources). -/
def BSIZE : Nat := 1024

/-- Modelled from the spec: the descriptor count of the virtqueue
(`NUM = 8`, virtio module not in the sources). -/
def NUM : Nat := 8

/-- Modelled from the virtio legacy spec: request type of a device read. -/
def VIRTIO_BLK_T_IN : Nat := 0

/-- Modelled from the virtio legacy spec: request type of a device write. -/
def VIRTIO_BLK_T_OUT : Nat := 1

/-- Descriptor flags, mirroring `VirtqDescFlags` (NEXT and WRITE bits). -/
structure VDescFlags where
  next : Bool
  write : Bool
deriving DecidableEq

/-- A virtqueue descriptor, mirroring `VirtqDesc`. -/
structure VDesc where
  addr : Nat
  len : Nat
  flags : VDescFlags
  next : Nat
deriving DecidableEq

/-- The request header, mirroring `VirtIOBlockOutHeader`
(u32 typ, u32 reserved, usize sector: 16 bytes). -/
structure VBlockHeader where
  typ : Nat
  reserved : Nat
  sector : Nat
deriving DecidableEq

/-- Size in bytes of `VirtIOBlockOutHeader`. -/
def HEADER_SIZE : Nat := 16

/-- `VirtIOBlockOutHeader::new`. -/
def vBlockHeaderNew (write : Bool) (sector : Nat) : VBlockHeader :=
  ⟨if write then VIRTIO_BLK_T_OUT else VIRTIO_BLK_T_IN, 0, sector⟩

/-- Replace the `i`-th element of a list. -/
def listSet (l : List α) (i : Nat) (a : α) : List α :=
  l.set i a

/-- The driver-visible part of `VirtioDisk` plus the `DiskInfo` shadow
state needed by the claims. -/
structure DiskState where
  desc : List VDesc
  allocated : List Bool
  availRing : List Nat
  availIdx : Nat
  inflightB : List (Option Nat)
  inflightStatus : List Bool
  ops : List VBlockHeader

/-- `Bitmap::first_false_index`: index of the first `false` entry. -/
def firstFalseIndex : List Bool → Option Nat
  | [] => none
  | b :: rest => if !b then some 0 else (firstFalseIndex rest).map (· + 1)

/-- `VirtioDisk::alloc`: find a free descriptor, mark it allocated. -/
def diskAlloc (d : DiskState) : Option (Nat × DiskState) :=
  match firstFalseIndex d.allocated with
  | none => none
  | some idx => some (idx, { d with allocated := listSet d.allocated idx true })

/-- `VirtioDisk::alloc_three_descriptors`: three `alloc`s; on any failure
the ones obtained are freed again and `none` is returned. -/
def allocThreeDescriptors (d : DiskState) : Option ((Nat × Nat × Nat) × DiskState) :=
  match diskAlloc d with
  | none => none
  | some (i0, d0) =>
    match diskAlloc d0 with
    | none => none
    | some (i1, d1) =>
      match diskAlloc d1 with
      | none => none
      | some (i2, d2) => some ((i0, i1, i2), d2)

/-- The descriptor-formatting and submission part of `VirtioDisk::rw`,
given the three allocated descriptor indices. `opsAddr i` and
`statusAddr i` stand for the addresses of `info.ops[i]` and
`info.inflight[i].status`; `bufAddr` for `b.data.as_ptr()`. -/
def rwFormat (d : DiskState) (desc0 desc1 desc2 : Nat) (write : Bool)
    (blockno : Nat) (opsAddr statusAddr : Nat → Nat) (bufAddr : Nat) : DiskState :=
  let sector := blockno * (BSIZE / 512)
  let d := { d with ops := listSet d.ops desc0 (vBlockHeaderNew write sector) }
  let d := { d with
    desc := listSet d.desc desc0 ⟨opsAddr desc0, HEADER_SIZE, ⟨true, false⟩, desc1⟩ }
  let d := { d with
    desc := listSet d.desc desc1
      ⟨bufAddr, BSIZE, if write then ⟨true, false⟩ else ⟨true, true⟩, desc2⟩ }
  let d := { d with inflightStatus := listSet d.inflightStatus desc0 true }
  let d := { d with
    desc := listSet d.desc desc2 ⟨statusAddr desc0, 1, ⟨false, true⟩, 0⟩ }
  let d := { d with inflightB := listSet d.inflightB desc0 (some bufAddr) }
  let d := { d with availRing := listSet d.availRing (d.availIdx % NUM) desc0 }
  { d with availIdx := d.availIdx + 1 }

/-- `VirtioDisk::rw` up to queue notification: allocate the three
descriptors (sleeping, i.e. `none`, when they are not available) and build
and publish the chain. -/
def virtioRw (d : DiskState) (write : Bool) (blockno : Nat)
    (opsAddr statusAddr : Nat → Nat) (bufAddr : Nat) :
    Option ((Nat × Nat × Nat) × DiskState) :=
  match allocThreeDescriptors d with
  | none => none
  | some ((i0, i1, i2), d1) =>
    some ((i0, i1, i2), rwFormat d1 i0 i1 i2 write blockno opsAddr statusAddr bufAddr)

/-- `FileType` of `file.rs`. -/
inductive FileType
  | nofile
  | pipe
  | inode
  | device (major : Nat)
deriving DecidableEq

/-- The `File` object: type plus readable/writable permission bits. -/
structure FileM where
  typ : FileType
  readable : Bool
  writable : Bool
deriving DecidableEq

/-- Outcome of a file read/write: a panic, `Err(())`, or `Ok(n)`. -/
inductive RwOutcome
  | panicked (msg : String)
  | err
  | ok (n : Nat)
deriving DecidableEq

/-- Result of one `InodeGuard::{read, write}` call (an oracle for the
collaborator that is outside this excerpt): `Err(())` or `Ok(v)`. -/
inductive InodeRes
  | err
  | wrote (v : Nat)
deriving DecidableEq

/-- The per-chunk loop of `File::write` for `FileType::Inode`:
`for bytes_written in (0..n).step_by(max)`, opening one transaction per
chunk, with the `assert!(bytes_written? == bytes_to_write)` check. The
second component counts the transactions opened. Fuel: the start grows by
`max ≥ 1` per iteration, so `n` iterations suffice. -/
def inodeWriteGo (ipw : Nat → InodeRes) (n max : Nat) :
    Nat → Nat → Nat → RwOutcome × Nat
  | 0, _, txs => (RwOutcome.ok n, txs)
  | fuel + 1, start, txs =>
    if start < n then
      let toWrite := min (n - start) max
      match ipw start with
      | InodeRes.err => (RwOutcome.err, txs + 1)
      | InodeRes.wrote v =>
        if v = toWrite then inodeWriteGo ipw n max fuel (start + max) (txs + 1)
        else (RwOutcome.panicked "short File::write", txs + 1)
    else (RwOutcome.ok n, txs)

/-- The chunk size used by `File::write` for inodes:
`(MAXOPBLOCKS - 1 - 1 - 2) / 2 * BSIZE`. `MAXOPBLOCKS` is a parameter
(`param.rs` is not part of the excerpted sources). -/
def maxChunkSize (maxopblocks : Nat) : Nat := (maxopblocks - 1 - 1 - 2) / 2 * BSIZE

/-- `File::write`: permission check, then dispatch on the file type.
`pipeW` is the pipe-write collaborator's outcome, `ipw` the inode-write
oracle per chunk start, `devW` the device-write table entry
(`None` for a missing major or function). The second component is the
number of filesystem transactions opened. -/
def fileWrite (f : FileM) (maxopblocks : Nat) (_addr : Nat) (ipw : Nat → InodeRes)
    (pipeW : RwOutcome) (devW : Option Nat) (n : Nat) : RwOutcome × Nat :=
  if !f.writable then (RwOutcome.err, 0)
  else
    match f.typ with
    | FileType.pipe => (pipeW, 0)
    | FileType.inode =>
      inodeWriteGo ipw n (maxChunkSize maxopblocks) n 0 0
    | FileType.device _ =>
      match devW with
      | none => (RwOutcome.err, 0)
      | some v => (RwOutcome.ok v, 0)
    | FileType.nofile => (RwOutcome.panicked "File::read", 0)

/-- `File::read`: permission check, then dispatch on the file type. For
an inode, one transaction is opened, the inode read, and the cursor
advanced on success. Returns the outcome and the new cursor. -/
def fileRead (f : FileM) (_addr _n : Nat) (ipr : InodeRes) (pipeR : RwOutcome)
    (devR : Option Nat) (off : Nat) : RwOutcome × Nat :=
  if !f.readable then (RwOutcome.err, off)
  else
    match f.typ with
    | FileType.pipe => (pipeR, off)
    | FileType.inode =>
      match ipr with
      | InodeRes.err => (RwOutcome.err, off)
      | InodeRes.wrote v => (RwOutcome.ok v, off + v)
    | FileType.device _ =>
      match devR with
      | none => (RwOutcome.err, off)
      | some v => (RwOutcome.ok v, off)
    | FileType.nofile => (RwOutcome.panicked "File::read", off)

/-- `InodeType` of the filesystem layer (`fs/mod.rs`, outside the
excerpt; the variants are those matched by `fs/lfs/mod.rs`). -/
inductive InodeType
  | nofile
  | dir
  | file
  | device (major : Nat)
deriving DecidableEq

/-- State of the inode table and directories used by `Lfs::create`:
inode number to (type, nlink), and directory inode number to entries. -/
structure FsState where
  inodes : List (Nat × InodeType × Nat)
  dirents : List (Nat × List (String × Nat))
deriving DecidableEq

/-- The type of inode `inum` (the default `nofile` if absent). -/
def FsState.ityp (st : FsState) (inum : Nat) : InodeType :=
  match List.find? (fun e => e.1 == inum) st.inodes with
  | some e => e.2.1
  | none => InodeType.nofile

/-- The nlink of inode `inum` (0 if absent). -/
def FsState.nlink (st : FsState) (inum : Nat) : Nat :=
  match List.find? (fun e => e.1 == inum) st.inodes with
  | some e => e.2.2
  | none => 0

/-- Overwrite inode `inum`. -/
def FsState.setInode (st : FsState) (inum : Nat) (t : InodeType) (nl : Nat) : FsState :=
  { st with inodes := (inum, t, nl) :: List.filter (fun e => e.1 != inum) st.inodes }

/-- The entries of directory `dp`. -/
def FsState.dirOf (st : FsState) (dp : Nat) : List (String × Nat) :=
  match List.find? (fun e => e.1 == dp) st.dirents with
  | some e => e.2
  | none => []

/-- Modelled from the spec: `InodeGuard::dirlookup` of the inode-cache
collaborator finds the directory entry with the given name. -/
def dirlookup (st : FsState) (dp : Nat) (name : String) : Option Nat :=
  match List.find? (fun e => e.1 == name) (st.dirOf dp) with
  | some e => some e.2
  | none => none

/-- Modelled from the spec: `InodeGuard::dirlink` appends `(name, inum)`
to the directory; it must fail if `name` already exists there. -/
def dirlink (st : FsState) (dp : Nat) (name : String) (inum : Nat) :
    Option FsState :=
  match dirlookup st dp name with
  | some _ => none
  | none =>
    some { st with
      dirents := (dp, st.dirOf dp ++ [(name, inum)]) ::
        List.filter (fun e => e.1 != dp) st.dirents }

/-- Modelled from the spec: `Itable::alloc_inode` allocates a fresh inode
of the given type. The model picks the successor of the largest inode
number in use. -/
def allocInode (st : FsState) (t : InodeType) : Nat × FsState :=
  let inum := (st.inodes.map Prod.fst).foldr max 0 + 1
  (inum, st.setInode inum t 0)

/-- `Lfs::create`, after `nameiparent` resolved the path to the parent
directory `dp` and final component `name` (`parentRes = none` models a
failing `nameiparent`). `f` is the closure applied to the locked inode
guard, modelled as a function of the inode number. `Except.error` models
the `expect` panics of the source. -/
def lfsCreate {T : Type} (st : FsState) (parentRes : Option (Nat × String))
    (typ : InodeType) (f : Nat → T) :
    Except String (Option (Nat × T × FsState)) :=
  match parentRes with
  | none => Except.ok none
  | some (dp, name) =>
    match dirlookup st dp name with
    | some inum =>
      if typ ≠ InodeType.file then Except.ok none
      else
        match st.ityp inum with
        | InodeType.nofile => Except.ok none
        | InodeType.dir => Except.ok none
        | _ => Except.ok (some (inum, f inum, st))
    | none =>
      let (inum, st1) := allocInode st typ
      let st2 := st1.setInode inum typ 1
      match
        (if typ = InodeType.dir then
          let st3 := st2.setInode dp (st2.ityp dp) (st2.nlink dp + 1)
          match dirlink st3 inum "." inum with
          | none => Except.error "create dots"
          | some st4 =>
            match dirlink st4 inum ".." dp with
            | none => Except.error "create dots"
            | some st5 => Except.ok st5
        else Except.ok st2 : Except String FsState)
      with
      | Except.error e => Except.error e
      | Except.ok st6 =>
        match dirlink st6 dp name inum with
        | none => Except.error "create: dirlink"
        | some st7 => Except.ok (some (inum, f inum, st7))

/-- The kernel's fixed syscall table: index 0 unused, indices 1..22 are
the 22 handlers, mirroring the `SYSCALLS` array. -/
def SYSCALLS : List (Option String) :=
  [none,
   some "sys_fork", some "sys_exit", some "sys_wait", some "sys_pipe",
   some "sys_read", some "sys_kill", some "sys_exec", some "sys_fstat",
   some "sys_chdir", some "sys_dup", some "sys_getpid", some "sys_sbrk",
   some "sys_sleep", some "sys_uptime", some "sys_open", some "sys_write",
   some "sys_mknod", some "sys_unlink", some "sys_link", some "sys_mkdir",
   some "sys_close", some "sys_poweroff"]

/-- Largest `usize` value, returned in `a0` for an unknown syscall. -/
def usizeMAX : Nat := 2 ^ 64 - 1

/-- The `a7 as i32` conversion of the dispatcher: the low 32 bits of the
register interpreted as a signed 32-bit integer. -/
def int32OfNat (a : Nat) : Int :=
  let low : Nat := a % 2 ^ 32
  if low < 2 ^ 31 then (low : Int) else (low : Int) - 2 ^ 32

/-- Result of one run of the dispatcher: either a handler was invoked
(recording its name and the value stored into `a0`), or the
unknown-syscall message was printed and `usize::MAX` stored into `a0`. -/
inductive SyscallOutcome
  | invoked (name : String) (a0 : Nat)
  | unknown (a0 : Nat)
deriving DecidableEq

/-- The `syscall` dispatcher: read `num = a7 as i32`, check
`num > 0 && (num as usize) < SYSCALLS.len() && SYSCALLS[num].is_some()`,
and either invoke the handler (whose return value the oracle
`handlerRet` supplies) or store `usize::MAX`. -/
def syscallRun (handlerRet : Nat → Nat) (a7 : Nat) : SyscallOutcome :=
  let num := int32OfNat a7
  if 0 < num ∧ num.toNat < SYSCALLS.length ∧ (SYSCALLS.getD num.toNat none).isSome then
    SyscallOutcome.invoked ((SYSCALLS.getD num.toNat none).getD "") (handlerRet num.toNat)
  else SyscallOutcome.unknown usizeMAX

/-! ## Association-list access lemmas -/

theorem find_filter_ne {α : Type} (id id' : Nat) (h : id' ≠ id) (l : List (Nat × α)) :
    List.find? (fun e => e.1 == id') (List.filter (fun e => e.1 != id) l) =
    List.find? (fun e => e.1 == id') l := by
  induction l with
  | nil => rfl
  | cons e rest ih =>
    by_cases h2 : e.1 = id'
    · have hb : (e.1 != id) = true := bne_iff_ne.mpr (by rw [h2]; exact h)
      have ht : (e.1 == id') = true := beq_iff_eq.mpr h2
      simp [List.filter_cons, hb, List.find?_cons, ht]
    · have hf : (e.1 == id') = false := beq_eq_false_iff_ne.mpr h2
      by_cases h1 : e.1 = id
      · have hb : (e.1 != id) = false := by simp [h1]
        simp [List.filter_cons, hb, List.find?_cons, hf, ih]
      · have hb : (e.1 != id) = true := bne_iff_ne.mpr h1
        simp [List.filter_cons, hb, List.find?_cons, hf, ih]

theorem rptGet_rptSet_self (t : RPT) (i : Nat) (p : Pte) :
    rptGet (rptSet t i p) i = p := by
  simp [rptGet, rptSet, List.find?_cons]

theorem rptGet_rptSet_ne (t : RPT) (i j : Nat) (p : Pte) (h : j ≠ i) :
    rptGet (rptSet t i p) j = rptGet t j := by
  have hne : (i == j) = false := beq_eq_false_iff_ne.mpr (fun hh => h hh.symm)
  simp only [rptGet, rptSet, List.find?_cons, hne]
  rw [find_filter_ne i j h]

theorem table_setTable_self (s : MState) (id : Nat) (t : RPT) :
    (s.setTable id t).table id = t := by
  simp [MState.table, MState.setTable, List.find?_cons]

theorem table_setTable_ne (s : MState) (id id' : Nat) (t : RPT) (h : id' ≠ id) :
    (s.setTable id t).table id' = s.table id' := by
  have hne : (id == id') = false := beq_eq_false_iff_ne.mpr (fun hh => h hh.symm)
  simp only [MState.table, MState.setTable, List.find?_cons, hne]
  rw [find_filter_ne id id' h]

/-! ## C7: syscall dispatch -/

/-- C7: for every value `num` read from register `a7` (as the signed
32-bit number the dispatcher computes), the handler with that number is
invoked and its return value stored in `a0` exactly when `num` is one of
the recognized numbers 1..22; for every other value (0, negative, or out
of range) `usize::MAX` is stored in `a0` after the unknown-syscall
message. -/
theorem c7_syscall_dispatch (handlerRet : Nat → Nat) (a7 : Nat) :
    (1 ≤ int32OfNat a7 ∧ int32OfNat a7 ≤ 22 →
      ∃ name, SYSCALLS.getD (int32OfNat a7).toNat none = some name ∧
        syscallRun handlerRet a7 =
          SyscallOutcome.invoked name (handlerRet (int32OfNat a7).toNat)) ∧
    (¬(1 ≤ int32OfNat a7 ∧ int32OfNat a7 ≤ 22) →
      syscallRun handlerRet a7 = SyscallOutcome.unknown usizeMAX) := by
  constructor
  · rintro ⟨h1, h2⟩
    have hlen : SYSCALLS.length = 23 := by decide
    have hn1 : 1 ≤ (int32OfNat a7).toNat := by omega
    have hn22 : (int32OfNat a7).toNat ≤ 22 := by omega
    have hsome : (SYSCALLS.getD (int32OfNat a7).toNat none).isSome := by
      set n := (int32OfNat a7).toNat with hn
      interval_cases n <;> decide
    obtain ⟨name, hname⟩ := Option.isSome_iff_exists.mp hsome
    refine ⟨name, hname, ?_⟩
    rw [syscallRun, if_pos]
    · rw [hname]; rfl
    · exact ⟨by omega, by omega, hsome⟩
  · intro h
    rw [syscallRun, if_neg]
    rintro ⟨g1, g2, g3⟩
    rcases lt_or_le (int32OfNat a7) 23 with hlt | hge
    · exact h ⟨by omega, by omega⟩
    · have : (23 : Nat) ≤ (int32OfNat a7).toNat := by omega
      have hlen : SYSCALLS.length = 23 := by decide
      omega

/-- Witness for C7 at concrete inputs: `a7 = 5` dispatches and `a7` with
the low 32 bits encoding -1 stores `usize::MAX`. -/
theorem c7_syscall_dispatch_witness :
    (∃ name, SYSCALLS.getD (int32OfNat 5).toNat none = some name ∧
      syscallRun (fun i => 100 + i) 5 =
        SyscallOutcome.invoked name ((fun i => 100 + i) (int32OfNat 5).toNat)) ∧
    syscallRun (fun i => 100 + i) (2 ^ 64 - 1) = SyscallOutcome.unknown usizeMAX :=
  ⟨(c7_syscall_dispatch (fun i => 100 + i) 5).1 (by decide),
   (c7_syscall_dispatch (fun i => 100 + i) (2 ^ 64 - 1)).2 (by decide)⟩

/-! ## C9: File::read on FileType::None -/

/-- C9 counterexample: a `File` with `typ = FileType::None` that is not
readable returns `Err(())` from `File::read` instead of panicking, because
the readable check precedes the dispatch on the file type. -/
theorem c9_read_none_counterexample :
    fileRead ⟨FileType.nofile, false, false⟩ 0 64 InodeRes.err RwOutcome.err none 7 =
      (RwOutcome.err, 7) := rfl

/-- C9 amended: `File::read` on a `FileType::None` file panics
(`"File::read"`) exactly when the file is readable; a non-readable one
returns `Err(())` without panicking. -/
theorem c9_read_none (w : Bool) (addr n : Nat) (ipr : InodeRes) (pipeR : RwOutcome)
    (devR : Option Nat) (off : Nat) :
    fileRead ⟨FileType.nofile, true, w⟩ addr n ipr pipeR devR off =
      (RwOutcome.panicked "File::read", off) ∧
    fileRead ⟨FileType.nofile, false, w⟩ addr n ipr pipeR devR off =
      (RwOutcome.err, off) :=
  ⟨rfl, rfl⟩

/-! ## C1: Lfs::create when the name already exists -/

/-- A concrete filesystem state: the root directory (inode 1) contains an
entry `"x"` naming a Device inode (inode 2, major 3). -/
def c1state : FsState :=
  ⟨[(2, InodeType.device 3, 1), (1, InodeType.dir, 2)], [(1, [("x", 2)])]⟩

/-- C1 counterexample: `create` with `typ = File` on a path whose final
component already exists and names a Device inode (not a regular File)
succeeds and returns the existing inode, contradicting the claim that it
errors whenever the existing inode is not a regular File. -/
theorem c1_create_counterexample :
    c1state.ityp 2 = InodeType.device 3 ∧
    lfsCreate c1state (some (1, "x")) InodeType.file (fun i => i) =
      Except.ok (some (2, 2, c1state)) :=
  ⟨rfl, rfl⟩

/-- C1 amended: when the final component already exists (bound to inode
`inum` of the parent directory), `create` succeeds iff the requested type
is `File` and the existing inode is a regular File or a Device (it errors
iff the requested type is not `File` or the existing inode is `None` or a
directory); on success it returns the existing inode together with `f`
applied to its locked guard, and the state is unchanged. -/
theorem c1_create_existing {T : Type} (st : FsState) (dp : Nat) (name : String)
    (typ : InodeType) (f : Nat → T) (inum : Nat)
    (hlook : dirlookup st dp name = some inum) :
    (typ = InodeType.file ∧ st.ityp inum ≠ InodeType.nofile ∧
        st.ityp inum ≠ InodeType.dir →
      lfsCreate st (some (dp, name)) typ f = Except.ok (some (inum, f inum, st))) ∧
    ((typ ≠ InodeType.file ∨ st.ityp inum = InodeType.nofile ∨
        st.ityp inum = InodeType.dir) →
      lfsCreate st (some (dp, name)) typ f = Except.ok none) := by
  constructor
  · rintro ⟨ht, hn, hd⟩
    simp only [lfsCreate, hlook]
    rw [if_neg (by simp [ht])]
  · rintro (ht | hn | hd)
    · simp only [lfsCreate, hlook]
      rw [if_pos ht]
    · simp only [lfsCreate, hlook, hn, ite_self]
    · simp only [lfsCreate, hlook, hd, ite_self]

/-- Witness for C1 at concrete inputs: an existing regular-File entry is
returned by `create(File)`, and `create(Dir)` over an existing entry
errors. -/
theorem c1_create_existing_witness :
    (lfsCreate ⟨[(2, InodeType.file, 1)], [(1, [("x", 2)])]⟩ (some (1, "x"))
        InodeType.file (fun i => i + 10) = Except.ok (some (2, 12,
          ⟨[(2, InodeType.file, 1)], [(1, [("x", 2)])]⟩))) ∧
    (lfsCreate ⟨[(2, InodeType.file, 1)], [(1, [("x", 2)])]⟩ (some (1, "x"))
        InodeType.dir (fun i => i + 10) = Except.ok none) :=
  ⟨(c1_create_existing ⟨[(2, InodeType.file, 1)], [(1, [("x", 2)])]⟩ 1 "x"
      InodeType.file (fun i => i + 10) 2 rfl).1 (by refine ⟨rfl, ?_, ?_⟩ <;> decide),
   (c1_create_existing ⟨[(2, InodeType.file, 1)], [(1, [("x", 2)])]⟩ 1 "x"
      InodeType.dir (fun i => i + 10) 2 rfl).2 (Or.inl (by decide))⟩

/-! ## C2: File::write chunking for inodes -/

theorem chunkCount_step (max t : Nat) (hmax : 0 < max) (ht : 0 < t) :
    (t + max - 1) / max = ((t - max) + max - 1) / max + 1 := by
  rcases le_or_lt t max with h | h
  · have h1 : t - max = 0 := by omega
    rw [h1]
    have h2 : (0 + max - 1) / max = 0 := Nat.div_eq_of_lt (by omega)
    rw [h2]
    have h3 : t + max - 1 = (t - 1) + max := by omega
    rw [h3, Nat.add_div_right _ hmax]
    have h4 : (t - 1) / max = 0 := Nat.div_eq_of_lt (by omega)
    omega
  · have h3 : t + max - 1 = (((t - max) + max - 1)) + max := by omega
    rw [h3, Nat.add_div_right _ hmax]

theorem inodeWriteGo_full (ipw : Nat → InodeRes) (n max : Nat) (hmax : 0 < max) :
    ∀ fuel cur txs, n ≤ cur + fuel * max →
      (∀ s, cur ≤ s → s < n → (s - cur) % max = 0 →
        ipw s = InodeRes.wrote (min (n - s) max)) →
      inodeWriteGo ipw n max fuel cur txs =
        (RwOutcome.ok n, txs + (n - cur + max - 1) / max) := by
  intro fuel
  induction fuel with
  | zero =>
    intro cur txs hfuel _
    have h0 : n - cur = 0 := by omega
    have h2 : (0 + max - 1) / max = 0 := Nat.div_eq_of_lt (by omega)
    rw [h0, h2]
    simp [inodeWriteGo]
  | succ fuel ih =>
    intro cur txs hfuel hipw
    rw [inodeWriteGo]
    by_cases hcur : cur < n
    · rw [if_pos hcur]
      simp only [hipw cur (le_refl _) hcur (by simp), eq_self_iff_true, if_true]
      rw [ih (cur + max) (txs + 1) (by rw [Nat.succ_mul] at hfuel; omega)]
      · have harith := chunkCount_step max (n - cur) hmax (by omega)
        have hrw : n - (cur + max) = n - cur - max := by omega
        rw [hrw, harith]
        simp only [Prod.mk.injEq]
        exact ⟨trivial, by ring⟩
      · intro s hs1 hs2 hs3
        apply hipw s (by omega) hs2
        have hd : s - cur = (s - (cur + max)) + max := by omega
        rw [hd, Nat.add_mod_right]
        exact hs3
    · rw [if_neg hcur]
      have h0 : n - cur = 0 := by omega
      have h2 : (0 + max - 1) / max = 0 := Nat.div_eq_of_lt (by omega)
      rw [h0, h2]
      simp

theorem inodeWriteGo_short (ipw : Nat → InodeRes) (n max : Nat) (hmax : 0 < max) :
    ∀ fuel cur txs start v, cur ≤ start → start < n → (start - cur) % max = 0 →
      n ≤ cur + fuel * max →
      (∀ s, cur ≤ s → s < start → (s - cur) % max = 0 →
        ipw s = InodeRes.wrote (min (n - s) max)) →
      ipw start = InodeRes.wrote v → v ≠ min (n - start) max →
      (inodeWriteGo ipw n max fuel cur txs).1 =
        RwOutcome.panicked "short File::write" := by
  intro fuel
  induction fuel with
  | zero =>
    intro cur txs start v h1 h2 _ hfuel _ _ _
    omega
  | succ fuel ih =>
    intro cur txs start v h1 h2 h3 hfuel hpre hbad hne
    rw [inodeWriteGo, if_pos (by omega : cur < n)]
    rcases eq_or_lt_of_le h1 with heq | hlt
    · rw [← heq] at hbad hne
      simp only [hbad, if_neg hne]
    · have hdvd : max ∣ (start - cur) := Nat.dvd_of_mod_eq_zero h3
      have hge : cur + max ≤ start := by
        have := Nat.le_of_dvd (by omega) hdvd
        omega
      simp only [hpre cur (le_refl _) hlt (by simp), eq_self_iff_true, if_true]
      apply ih (cur + max) (txs + 1) start v hge h2
      · have hxm : (start - cur - max) + max = start - cur := by omega
        have h0 : ((start - cur - max) + max) % max = 0 := by rw [hxm]; exact h3
        rw [Nat.add_mod_right] at h0
        have hsub : start - (cur + max) = start - cur - max := by omega
        rw [hsub]
        exact h0
      · rw [Nat.succ_mul] at hfuel
        omega
      · intro s hs1 hs2 hs3
        apply hpre s (by omega) hs2
        have hd : s - cur = (s - (cur + max)) + max := by omega
        rw [hd, Nat.add_mod_right]
        exact hs3
      · exact hbad
      · exact hne

/-- C2: for every writable File of type Inode and requested length `n`,
`File::write` splits the data into chunks of at most
`(MAXOPBLOCKS - 4) / 2 * BSIZE` bytes, opens a fresh transaction for each
chunk, panics with the short-write assertion (message
`"short File::write"`) if a chunk writes fewer bytes than requested of it
(all earlier chunks having completed in full), and returns `Ok(n)` with
one transaction per chunk when every chunk completes in full. -/
theorem c2_file_write (f : FileM) (maxopblocks addr n : Nat) (ipw : Nat → InodeRes)
    (pipeW : RwOutcome) (devW : Option Nat)
    (htyp : f.typ = FileType.inode) (hw : f.writable = true)
    (hmax : 0 < maxChunkSize maxopblocks) :
    (∀ start, min (n - start) (maxChunkSize maxopblocks) ≤
      (maxopblocks - 4) / 2 * BSIZE) ∧
    ((∀ s, s < n → s % maxChunkSize maxopblocks = 0 →
        ipw s = InodeRes.wrote (min (n - s) (maxChunkSize maxopblocks))) →
      fileWrite f maxopblocks addr ipw pipeW devW n =
        (RwOutcome.ok n,
          (n + maxChunkSize maxopblocks - 1) / maxChunkSize maxopblocks)) ∧
    (∀ start v, start < n → start % maxChunkSize maxopblocks = 0 →
      (∀ s, s < start → s % maxChunkSize maxopblocks = 0 →
        ipw s = InodeRes.wrote (min (n - s) (maxChunkSize maxopblocks))) →
      ipw start = InodeRes.wrote v → v < min (n - start) (maxChunkSize maxopblocks) →
      (fileWrite f maxopblocks addr ipw pipeW devW n).1 =
        RwOutcome.panicked "short File::write") := by
  have heq4 : maxChunkSize maxopblocks = (maxopblocks - 4) / 2 * BSIZE := by
    have h14 : maxopblocks - 1 - 1 - 2 = maxopblocks - 4 := by omega
    rw [maxChunkSize, h14]
  refine ⟨?_, ?_, ?_⟩
  · intro start
    rw [← heq4]
    exact min_le_right _ _
  · intro hfull
    simp only [fileWrite, hw, htyp, Bool.not_true, if_false, Bool.false_eq_true]
    rw [inodeWriteGo_full ipw n (maxChunkSize maxopblocks) hmax n 0 0
      (by have := Nat.le_mul_of_pos_right n hmax; omega)
      (by intro s _ hs2 hs3; exact hfull s hs2 (by simpa using hs3))]
    simp
  · intro start v hs hs0 hpre hbad hv
    simp only [fileWrite, hw, htyp, Bool.not_true, if_false, Bool.false_eq_true]
    exact inodeWriteGo_short ipw n (maxChunkSize maxopblocks) hmax n 0 0 start v
      (Nat.zero_le _) hs (by simpa using hs0)
      (by have := Nat.le_mul_of_pos_right n hmax; omega)
      (by intro s _ hs2 hs3; exact hpre s hs2 (by simpa using hs3))
      hbad (Nat.ne_of_lt hv)

/-- Witness for C2 at concrete inputs (`MAXOPBLOCKS = 7`, so the chunk
size is 1024): a full write of 5 bytes yields `Ok(5)` in one transaction,
and a chunk that writes 3 of 5 requested bytes panics. -/
theorem c2_file_write_witness :
    fileWrite ⟨FileType.inode, true, true⟩ 7 0
      (fun s => InodeRes.wrote (min (5 - s) 1024)) RwOutcome.err none 5 =
      (RwOutcome.ok 5, 1) ∧
    (fileWrite ⟨FileType.inode, true, true⟩ 7 0 (fun _ => InodeRes.wrote 3)
      RwOutcome.err none 5).1 = RwOutcome.panicked "short File::write" :=
  ⟨(c2_file_write ⟨FileType.inode, true, true⟩ 7 0 5
      (fun s => InodeRes.wrote (min (5 - s) 1024)) RwOutcome.err none rfl rfl
      (by decide)).2.1 (by decide),
   (c2_file_write ⟨FileType.inode, true, true⟩ 7 0 5 (fun _ => InodeRes.wrote 3)
      RwOutcome.err none rfl rfl (by decide)).2.2 0 3 (by decide) (by decide)
      (by intro s hs _; omega) rfl (by decide)⟩

/-! ## C6: the three-descriptor chain built by VirtioDisk::rw -/

/-- The all-zero descriptor. -/
def VDesc.zero : VDesc := ⟨0, 0, ⟨false, false⟩, 0⟩

/-- The all-zero request header. -/
def VBlockHeader.zero : VBlockHeader := ⟨0, 0, 0⟩

theorem listSet_length {α : Type} (l : List α) (i : Nat) (a : α) :
    (listSet l i a).length = l.length := by
  simp [listSet]

theorem listSet_getD_self {α : Type} (l : List α) (i : Nat) (a d : α)
    (h : i < l.length) :
    (listSet l i a).getD i d = a := by
  induction l generalizing i with
  | nil => simp at h
  | cons x rest ih =>
    cases i with
    | zero => rfl
    | succ j =>
      simp only [listSet, List.set, List.getD, List.get?]
      exact ih j (by simpa using h)

theorem listSet_getD_ne {α : Type} (l : List α) (i j : Nat) (a d : α) (h : j ≠ i) :
    (listSet l i a).getD j d = l.getD j d := by
  induction l generalizing i j with
  | nil => simp [listSet]
  | cons x rest ih =>
    cases i with
    | zero =>
      cases j with
      | zero => exact absurd rfl h
      | succ j' => rfl
    | succ i' =>
      cases j with
      | zero => rfl
      | succ j' =>
        simp only [listSet, List.set, List.getD, List.get?]
        exact ih i' j' (by omega)

theorem firstFalseIndex_spec :
    ∀ (l : List Bool) (i : Nat), firstFalseIndex l = some i →
      i < l.length ∧ l.getD i true = false := by
  intro l
  induction l with
  | nil => intro i h; cases h
  | cons b rest ih =>
    intro i h
    rw [firstFalseIndex] at h
    by_cases hb : b
    · rw [hb] at h
      simp only [Bool.not_true, if_false, Option.map_eq_some', Bool.false_eq_true] at h
      obtain ⟨j, hj, hji⟩ := h
      obtain ⟨h1, h2⟩ := ih j hj
      subst hji
      exact ⟨by simpa using Nat.succ_lt_succ h1, by simpa using h2⟩
    · rw [Bool.not_eq_true] at hb
      rw [hb] at h
      simp only [Bool.not_false, if_true, Option.some.injEq] at h
      subst h
      exact ⟨Nat.succ_pos _, by simp [hb]⟩

theorem diskAlloc_spec (d : DiskState) (i : Nat) (d1 : DiskState)
    (h : diskAlloc d = some (i, d1)) :
    i < d.allocated.length ∧ d.allocated.getD i true = false ∧
      d1 = { d with allocated := listSet d.allocated i true } := by
  rw [diskAlloc] at h
  cases hf : firstFalseIndex d.allocated with
  | none => rw [hf] at h; cases h
  | some j =>
    rw [hf] at h
    simp only [Option.some.injEq, Prod.mk.injEq] at h
    obtain ⟨h1, h2⟩ := h
    subst h1
    obtain ⟨ha, hb⟩ := firstFalseIndex_spec _ _ hf
    exact ⟨ha, hb, h2.symm⟩

/-- C6: every request chain built by `VirtioDisk::rw` consists of exactly
three (pairwise distinct) descriptors: a header descriptor with flags
NEXT whose `ops` entry is `{typ = OUT for a write and IN for a read,
reserved = 0, sector = blockno * (BSIZE/512)}`; a data descriptor whose
flags are NEXT for a write and NEXT|WRITE for a read; and a status
descriptor with flags WRITE, length 1 and next 0. -/
theorem c6_rw_chain (d : DiskState) (write : Bool) (blockno : Nat)
    (opsAddr statusAddr : Nat → Nat) (bufAddr : Nat)
    (i0 i1 i2 : Nat) (d' : DiskState)
    (hdesc : d.desc.length = NUM) (hops : d.ops.length = NUM)
    (halloc : d.allocated.length = NUM)
    (hrun : virtioRw d write blockno opsAddr statusAddr bufAddr =
      some ((i0, i1, i2), d')) :
    i0 ≠ i1 ∧ i0 ≠ i2 ∧ i1 ≠ i2 ∧
    d'.desc.getD i0 VDesc.zero = ⟨opsAddr i0, HEADER_SIZE, ⟨true, false⟩, i1⟩ ∧
    d'.desc.getD i1 VDesc.zero =
      ⟨bufAddr, BSIZE, if write then ⟨true, false⟩ else ⟨true, true⟩, i2⟩ ∧
    d'.desc.getD i2 VDesc.zero = ⟨statusAddr i0, 1, ⟨false, true⟩, 0⟩ ∧
    d'.ops.getD i0 VBlockHeader.zero =
      ⟨if write then VIRTIO_BLK_T_OUT else VIRTIO_BLK_T_IN, 0,
        blockno * (BSIZE / 512)⟩ := by
  rw [virtioRw] at hrun
  cases h3 : allocThreeDescriptors d with
  | none => rw [h3] at hrun; cases hrun
  | some r =>
    rw [h3] at hrun
    obtain ⟨⟨j0, j1, j2⟩, d3⟩ := r
    simp only [Option.some.injEq, Prod.mk.injEq] at hrun
    obtain ⟨⟨hj0, hj1, hj2⟩, hd'⟩ := hrun
    subst hj0; subst hj1; subst hj2
    rw [allocThreeDescriptors] at h3
    cases ha : diskAlloc d with
    | none => rw [ha] at h3; cases h3
    | some r0 =>
      obtain ⟨k0, e0⟩ := r0
      simp only [ha] at h3
      cases hb : diskAlloc e0 with
      | none => simp only [hb] at h3; cases h3
      | some r1 =>
        obtain ⟨k1, e1⟩ := r1
        simp only [hb] at h3
        cases hc : diskAlloc e1 with
        | none => simp only [hc] at h3; cases h3
        | some r2 =>
          obtain ⟨k2, e2⟩ := r2
          simp only [hc] at h3
          simp only [Option.some.injEq, Prod.mk.injEq] at h3
          obtain ⟨⟨hk0, hk1, hk2⟩, he2⟩ := h3
          subst hk0; subst hk1; subst hk2; subst he2
          obtain ⟨hl0, hf0, he0⟩ := diskAlloc_spec _ _ _ ha
          subst he0
          obtain ⟨hl1, hf1, he1⟩ := diskAlloc_spec _ _ _ hb
          subst he1
          obtain ⟨hl2, hf2, he2⟩ := diskAlloc_spec _ _ _ hc
          subst he2
          simp only [listSet_length] at hl1 hl2
          have hne10 : k1 ≠ k0 := by
            intro hcontra
            rw [hcontra, listSet_getD_self _ _ _ _ hl0] at hf1
            cases hf1
          have hne20 : k2 ≠ k0 := by
            intro hcontra
            rw [hcontra] at hf2
            by_cases h01 : (k0 : Nat) = k1
            · rw [h01, listSet_getD_self _ _ _ _ (by simpa [listSet_length] using hl1)] at hf2
              cases hf2
            · rw [listSet_getD_ne _ _ _ _ _ h01,
                listSet_getD_self _ _ _ _ hl0] at hf2
              cases hf2
          have hne21 : k2 ≠ k1 := by
            intro hcontra
            rw [hcontra,
              listSet_getD_self _ _ _ _ (by simpa [listSet_length] using hl1)] at hf2
            cases hf2
          subst hd'
          refine ⟨Ne.symm hne10, Ne.symm hne20, Ne.symm hne21, ?_, ?_, ?_, ?_⟩
          · simp only [rwFormat]
            rw [listSet_getD_ne _ _ _ _ _ (Ne.symm hne20),
              listSet_getD_ne _ _ _ _ _ (Ne.symm hne10),
              listSet_getD_self _ _ _ _ (by rw [hdesc]; omega)]
          · simp only [rwFormat]
            rw [listSet_getD_ne _ _ _ _ _ (Ne.symm hne21),
              listSet_getD_self _ _ _ _ (by rw [listSet_length, hdesc]; omega)]
          · simp only [rwFormat]
            rw [listSet_getD_self _ _ _ _
              (by rw [listSet_length, listSet_length, hdesc]; omega)]
          · simp only [rwFormat]
            rw [listSet_getD_self _ _ _ _ (by rw [hops]; omega)]
            rfl

/-- The all-free initial disk state used by the witness. -/
def diskW : DiskState :=
  ⟨List.replicate 8 VDesc.zero, List.replicate 8 false, List.replicate 8 0, 0,
   List.replicate 8 none, List.replicate 8 false, List.replicate 8 VBlockHeader.zero⟩

/-- Witness for C6: a concrete write request on the fresh disk builds the
chain 0 → 1 → 2 with the claimed descriptor fields. -/
theorem c6_rw_chain_witness : ∃ d' : DiskState,
    virtioRw diskW true 3 (fun i => 900 + i) (fun i => 800 + i) 4444 =
      some ((0, 1, 2), d') ∧
    ((0 : Nat) ≠ 1 ∧ (0 : Nat) ≠ 2 ∧ (1 : Nat) ≠ 2 ∧
      d'.desc.getD 0 VDesc.zero = ⟨(fun i => 900 + i) 0, HEADER_SIZE, ⟨true, false⟩, 1⟩ ∧
      d'.desc.getD 1 VDesc.zero =
        ⟨4444, BSIZE, if true then ⟨true, false⟩ else ⟨true, true⟩, 2⟩ ∧
      d'.desc.getD 2 VDesc.zero = ⟨(fun i => 800 + i) 0, 1, ⟨false, true⟩, 0⟩ ∧
      d'.ops.getD 0 VBlockHeader.zero =
        ⟨if true then VIRTIO_BLK_T_OUT else VIRTIO_BLK_T_IN, 0, 3 * (BSIZE / 512)⟩) :=
  ⟨_, rfl, c6_rw_chain diskW true 3 (fun i => 900 + i) (fun i => 800 + i) 4444
    0 1 2 _ rfl rfl rfl rfl⟩

/-! ## Page-table well-formedness and walk lemmas (for C3, C4, C8, C10) -/

theorem isTable_valid {p : Pte} (h : p.isTable = true) : p.valid = true := by
  unfold Pte.isTable at h
  simp only [Bool.and_eq_true] at h
  exact h.1.1.1

theorem setTable_isTable (pa : Nat) : (Pte.setTable pa).isTable = true := rfl

theorem setTable_ppn (c : Nat) : (Pte.setTable (c * PGSIZE)).ppn = c := by
  simp only [Pte.setTable]
  exact Nat.mul_div_cancel c (by norm_num [PGSIZE])

theorem setEntry_ppn (c : Nat) (perm : PteFlags) :
    (Pte.setEntry (c * PGSIZE) perm).ppn = c := by
  simp only [Pte.setEntry]
  exact Nat.mul_div_cancel c (by norm_num [PGSIZE])

theorem table_zeroPage (s : MState) (p id : Nat) :
    (s.zeroPage p).table id = s.table id := rfl

theorem table_physWriteList (s : MState) (b : Nat) (bs : List Nat) (id : Nat) :
    (s.physWriteList b bs).table id = s.table id := rfl

theorem table_kfree (s : MState) (p id : Nat) :
    (s.kfree p).table id = s.table id := rfl

theorem free_setTable (s : MState) (id : Nat) (t : RPT) :
    (s.setTable id t).free = s.free := rfl

theorem free_zeroPage (s : MState) (p : Nat) : (s.zeroPage p).free = s.free := rfl

theorem free_writePte (s : MState) (l : Loc) (p : Pte) :
    (s.writePte l p).free = s.free := rfl

/-- `c` is the child page-table page behind entry `i` of the table at
`parent`. -/
def isChildAt (s : MState) (parent i c : Nat) : Prop :=
  (rptGet (s.table parent) i).isTable = true ∧ (rptGet (s.table parent) i).ppn = c

/-- `c` is a child page-table page of `parent`. -/
def isChild (s : MState) (parent c : Nat) : Prop :=
  ∃ i, i < 512 ∧ isChildAt s parent i c

/-- `t` is a page-table page reachable from `root` (the root itself, a
level-1 child, or a level-0 grandchild). -/
def liveTable (s : MState) (root t : Nat) : Prop :=
  t = root ∨ isChild s root t ∨
    ∃ i, i < 512 ∧ (rptGet (s.table root) i).isTable = true ∧
      isChild s (rptGet (s.table root) i).ppn t

instance (s : MState) (parent i c : Nat) : Decidable (isChildAt s parent i c) :=
  decidable_of_iff ((rptGet (s.table parent) i).isTable = true ∧
    (rptGet (s.table parent) i).ppn = c) Iff.rfl

instance (s : MState) (parent c : Nat) : Decidable (isChild s parent c) :=
  decidable_of_iff (∃ i ∈ List.range 512, isChildAt s parent i c)
    (by simp [isChild, List.mem_range])

instance (s : MState) (root t : Nat) : Decidable (liveTable s root t) :=
  decidable_of_iff (t = root ∨ isChild s root t ∨
      ∃ i ∈ List.range 512, (rptGet (s.table root) i).isTable = true ∧
        isChild s (rptGet (s.table root) i).ppn t)
    (by simp [liveTable, List.mem_range])

/-- Well-formedness of a page table and the allocator: no duplicate free
pages, no free page is a reachable page-table page, and the reachability
tree is loop-free (no child equals the root; no grandchild equals the
root or its own parent). -/
def ptWf (root : Nat) (s : MState) : Prop :=
  s.free.Nodup ∧
  (∀ p ∈ s.free, ¬ liveTable s root p) ∧
  (∀ i ∈ List.range 512, (rptGet (s.table root) i).isTable = true →
    (rptGet (s.table root) i).ppn ≠ root) ∧
  (∀ i ∈ List.range 512, (rptGet (s.table root) i).isTable = true →
    ∀ j ∈ List.range 512,
      (rptGet (s.table (rptGet (s.table root) i).ppn) j).isTable = true →
      (rptGet (s.table (rptGet (s.table root) i).ppn) j).ppn ≠ root ∧
      (rptGet (s.table (rptGet (s.table root) i).ppn) j).ppn ≠
        (rptGet (s.table root) i).ppn)

instance (root : Nat) (s : MState) : Decidable (ptWf root s) := by
  unfold ptWf
  infer_instance

theorem ptWf_child_ne_root {root c : Nat} {s : MState} (hwf : ptWf root s)
    (h : isChild s root c) : c ≠ root := by
  obtain ⟨i, hi, ht, hp⟩ := h
  exact hp ▸ hwf.2.2.1 i (List.mem_range.mpr hi) ht

theorem ptWf_grandchild_ne {root m c : Nat} {s : MState} (hwf : ptWf root s)
    (hm : isChild s root m) (hc : isChild s m c) : c ≠ root ∧ c ≠ m := by
  obtain ⟨i, hi, ht, hp⟩ := hm
  obtain ⟨j, hj, ht2, hp2⟩ := hc
  subst hp
  subst hp2
  exact hwf.2.2.2 i (List.mem_range.mpr hi) ht j (List.mem_range.mpr hj) ht2

theorem liveTable_root (s : MState) (root : Nat) : liveTable s root root :=
  Or.inl rfl

theorem liveTable_child {s : MState} {root c : Nat} (h : isChild s root c) :
    liveTable s root c :=
  Or.inr (Or.inl h)

theorem liveTable_grandchild {s : MState} {root m c : Nat}
    (hm : isChild s root m) (hc : isChild s m c) : liveTable s root c := by
  obtain ⟨i, hi, ht, hp⟩ := hm
  exact Or.inr (Or.inr ⟨i, hi, ht, hp ▸ hc⟩)

theorem ptWf_root_not_free {root : Nat} {s : MState} (hwf : ptWf root s) :
    root ∉ s.free :=
  fun hmem => hwf.2.1 root hmem (liveTable_root s root)

theorem ptWf_live_not_free {root t : Nat} {s : MState} (hwf : ptWf root s)
    (hl : liveTable s root t) : t ∉ s.free :=
  fun hmem => hwf.2.1 t hmem hl

theorem getTableMut_alloc_spec (s : MState) (id index c : Nat) (s' : MState)
    (hid : id ∉ s.free)
    (h : getTableMut s id index true = (some c, s')) :
    ((rptGet (s.table id) index).isTable = true ∧
      (rptGet (s.table id) index).ppn = c ∧ s' = s) ∨
    ((rptGet (s.table id) index).valid = false ∧
      s.free = c :: s'.free ∧ id ≠ c ∧
      s'.table id = rptSet (s.table id) index (Pte.setTable (c * PGSIZE)) ∧
      s'.table c = [] ∧
      (∀ j, j ≠ id → j ≠ c → s'.table j = s.table j) ∧
      (∀ a, a < c * PGSIZE ∨ (c + 1) * PGSIZE ≤ a → s'.phys a = s.phys a)) := by
  unfold getTableMut at h
  by_cases hv : (rptGet (s.table id) index).valid
  · simp only [hv, Bool.not_true, Bool.false_eq_true, if_false, if_true] at h
    by_cases ht : (rptGet (s.table id) index).isTable
    · simp only [ht, if_true, Prod.mk.injEq, Option.some.injEq] at h
      exact Or.inl ⟨ht, h.1, h.2.symm⟩
    · simp only [Bool.not_eq_true] at ht
      simp only [ht, Bool.false_eq_true, if_false, Prod.mk.injEq] at h
      cases h.1
  · rw [Bool.not_eq_true] at hv
    simp only [hv, Bool.not_false, if_true] at h
    cases hf : s.free with
    | nil =>
      rw [rawPageTableNew, MState.kalloc, hf] at h
      simp only [Prod.mk.injEq] at h
      cases h.1
    | cons c0 rest =>
      rw [rawPageTableNew, MState.kalloc, hf] at h
      simp only [Prod.mk.injEq, Option.some.injEq] at h
      obtain ⟨hc, hs'⟩ := h
      subst hc
      have hcmem : c0 ∈ s.free := by rw [hf]; exact List.mem_cons_self _ _
      have hidc : id ≠ c0 := fun he => hid (he ▸ hcmem)
      refine Or.inr ⟨hv, ?_, hidc, ?_, ?_, ?_, ?_⟩
      · rw [← hs']
        rfl
      · rw [← hs', table_setTable_self, table_setTable_ne _ _ _ _ hidc]
        rfl
      · rw [← hs', table_setTable_ne _ _ _ _ (fun he => hidc he.symm),
          table_setTable_self]
      · intro j hj1 hj2
        rw [← hs', table_setTable_ne _ _ _ _ hj1, table_setTable_ne _ _ _ _ hj2]
        rfl
      · intro a ha
        rw [← hs']
        show (MState.zeroPage _ c0).phys a = s.phys a
        simp only [MState.zeroPage]
        rw [if_neg (by omega)]

theorem rptGet_nil (i : Nat) : rptGet ([] : RPT) i = Pte.zero := rfl

theorem ptIndex_lt (k va : Nat) : ptIndex k va < 512 := by
  unfold ptIndex
  omega

theorem zero_isTable : Pte.zero.isTable = false := rfl

theorem ptGetMut_read (root va t1 t0 : Nat) (u : MState) (hva : va < MAXVA)
    (h1t : (rptGet (u.table root) (ptIndex 2 va)).isTable = true)
    (h1p : (rptGet (u.table root) (ptIndex 2 va)).ppn = t1)
    (h2t : (rptGet (u.table t1) (ptIndex 1 va)).isTable = true)
    (h2p : (rptGet (u.table t1) (ptIndex 1 va)).ppn = t0)
    (h3 : (rptGet (u.table t0) (ptIndex 0 va)).isTable = false) :
    ptGetMut root u va false = Except.ok (some ⟨t0, ptIndex 0 va⟩, u) := by
  rw [ptGetMut, if_neg (by omega)]
  have e1 : getTableMut u root (ptIndex 2 va) false = (some t1, u) := by
    unfold getTableMut
    simp only [isTable_valid h1t, Bool.not_true, Bool.false_eq_true, if_false,
      h1t, if_true, h1p]
  have e2 : getTableMut u t1 (ptIndex 1 va) false = (some t0, u) := by
    unfold getTableMut
    simp only [isTable_valid h2t, Bool.not_true, Bool.false_eq_true, if_false,
      h2t, if_true, h2p]
  simp only [e1, e2, h3, Bool.false_eq_true, if_false]

/-- Complete description of a successful `PageTable::get_mut` walk with an
allocator: either both intermediate tables existed (S1), only the level-1
table existed and a level-0 table was created (S2), or both levels were
created (S3). -/
theorem ptGetMut_alloc_cases (root va : Nat) (s sA : MState) (l : Loc)
    (hwf : ptWf root s)
    (h : ptGetMut root s va true = Except.ok (some l, sA)) :
    va < MAXVA ∧ l.idx = ptIndex 0 va ∧
    (rptGet (sA.table l.tid) (ptIndex 0 va)).isTable = false ∧
    ∃ t1,
      ((isChildAt s root (ptIndex 2 va) t1 ∧ isChildAt s t1 (ptIndex 1 va) l.tid ∧
        sA = s) ∨
       (isChildAt s root (ptIndex 2 va) t1 ∧ t1 ∉ s.free ∧
        (rptGet (s.table t1) (ptIndex 1 va)).valid = false ∧
        s.free = l.tid :: sA.free ∧ t1 ≠ l.tid ∧
        sA.table t1 = rptSet (s.table t1) (ptIndex 1 va)
          (Pte.setTable (l.tid * PGSIZE)) ∧
        sA.table l.tid = [] ∧
        (∀ j, j ≠ t1 → j ≠ l.tid → sA.table j = s.table j) ∧
        (∀ a, a < l.tid * PGSIZE ∨ (l.tid + 1) * PGSIZE ≤ a →
          sA.phys a = s.phys a)) ∨
       ((rptGet (s.table root) (ptIndex 2 va)).valid = false ∧
        s.free = t1 :: l.tid :: sA.free ∧ root ≠ t1 ∧ t1 ≠ l.tid ∧
        sA.table root = rptSet (s.table root) (ptIndex 2 va)
          (Pte.setTable (t1 * PGSIZE)) ∧
        sA.table t1 = rptSet [] (ptIndex 1 va) (Pte.setTable (l.tid * PGSIZE)) ∧
        sA.table l.tid = [] ∧
        (∀ j, j ≠ root → j ≠ t1 → j ≠ l.tid → sA.table j = s.table j) ∧
        (∀ a, (a < t1 * PGSIZE ∨ (t1 + 1) * PGSIZE ≤ a) →
          (a < l.tid * PGSIZE ∨ (l.tid + 1) * PGSIZE ≤ a) →
          sA.phys a = s.phys a))) := by
  rw [ptGetMut] at h
  by_cases hva : MAXVA ≤ va
  · rw [if_pos hva] at h
    cases h
  · rw [if_neg hva] at h
    rcases hs1 : getTableMut s root (ptIndex 2 va) true with ⟨oc1, sB⟩
    rcases oc1 with _ | t1
    · simp only [hs1] at h
      cases h
    · simp only [hs1] at h
      rcases hs2 : getTableMut sB t1 (ptIndex 1 va) true with ⟨oc2, sC⟩
      rcases oc2 with _ | t0
      · simp only [hs2] at h
        cases h
      · simp only [hs2] at h
        by_cases hit : (rptGet (sC.table t0) (ptIndex 0 va)).isTable
        · rw [if_pos hit] at h
          cases h
        · rw [if_neg hit] at h
          simp only [Except.ok.injEq, Prod.mk.injEq, Option.some.injEq] at h
          obtain ⟨hl, hsa⟩ := h
          subst hsa
          subst hl
          rw [Bool.not_eq_true] at hit
          rcases getTableMut_alloc_spec s root (ptIndex 2 va) t1 sB
              (ptWf_root_not_free hwf) hs1 with
            ⟨hA1, hA2, hA3⟩ | ⟨hB1, hB2, hB3, hB4, hB5, hB6, hB7⟩
          · -- level-1 table existed
            rw [hA3] at hs2
            have hchild1 : isChild s root t1 :=
              ⟨ptIndex 2 va, ptIndex_lt 2 va, hA1, hA2⟩
            have ht1nf : t1 ∉ s.free :=
              ptWf_live_not_free hwf (liveTable_child hchild1)
            rcases getTableMut_alloc_spec s t1 (ptIndex 1 va) t0 sC ht1nf hs2 with
              ⟨hC1, hC2, hC3⟩ | ⟨hD1, hD2, hD3, hD4, hD5, hD6, hD7⟩
            · subst hC3
              exact ⟨by omega, rfl, hit, t1,
                Or.inl ⟨⟨hA1, hA2⟩, ⟨hC1, hC2⟩, rfl⟩⟩
            · exact ⟨by omega, rfl, hit, t1,
                Or.inr (Or.inl ⟨⟨hA1, hA2⟩, ht1nf, hD1, hD2, hD3, hD4, hD5,
                  hD6, hD7⟩)⟩
          · -- level-1 table was created
            have ht1mem : t1 ∈ s.free := by rw [hB2]; exact List.mem_cons_self _ _
            have ht1nfB : t1 ∉ sB.free := by
              intro hmem
              have := hwf.1
              rw [hB2] at this
              exact (List.nodup_cons.mp this).1 hmem
            rcases getTableMut_alloc_spec sB t1 (ptIndex 1 va) t0 sC ht1nfB hs2 with
              ⟨hC1, hC2, hC3⟩ | ⟨hD1, hD2, hD3, hD4, hD5, hD6, hD7⟩
            · rw [hB5, rptGet_nil, zero_isTable] at hC1
              cases hC1
            · have ht0memB : t0 ∈ sB.free := by
                rw [hD2]; exact List.mem_cons_self _ _
              have hroot_nfB : root ∉ sB.free := by
                intro hmem
                exact ptWf_root_not_free hwf (by rw [hB2]; exact List.mem_cons_of_mem _ hmem)
              have hroot_t0 : root ≠ t0 := fun he => hroot_nfB (he ▸ ht0memB)
              refine ⟨by omega, rfl, hit, t1, Or.inr (Or.inr ⟨hB1, ?_, hB3, hD3, ?_, ?_, hD5, ?_, ?_⟩)⟩
              · rw [hB2, hD2]
              · rw [hD6 root hB3 hroot_t0, hB4]
              · rw [hD4, hB5]
              · intro j hj1 hj2 hj3
                rw [hD6 j hj2 hj3, hB6 j hj1 hj2]
              · intro a ha1 ha2
                rw [hD7 a ha2, hB7 a ha1]

theorem setEntry_isTable {perm : PteFlags} (pa : Nat)
    (hperm : (perm.r || perm.w || perm.x) = true) :
    (Pte.setEntry pa perm).isTable = false := by
  rcases perm with ⟨r, w, x, u⟩
  simp only [Pte.setEntry, Pte.isTable] at *
  cases r <;> cases w <;> cases x <;> simp_all

theorem setEntry_isData {perm : PteFlags} (pa : Nat)
    (hperm : (perm.r || perm.w || perm.x) = true) :
    (Pte.setEntry pa perm).isData = true := by
  rcases perm with ⟨r, w, x, u⟩
  simp only [Pte.setEntry, Pte.isData] at *
  cases r <;> cases w <;> cases x <;> simp_all

/-- The walk facts in the post-state of a successful allocating walk:
the path root → t1 → l.tid exists, the three page-table pages are
pairwise distinct, and the level-0 entry is not a table entry. -/
theorem ptGetMut_alloc_walkFacts (root va : Nat) (s sA : MState) (l : Loc)
    (hwf : ptWf root s)
    (h : ptGetMut root s va true = Except.ok (some l, sA)) :
    va < MAXVA ∧ l.idx = ptIndex 0 va ∧
    ∃ t1, t1 ≠ root ∧ l.tid ≠ root ∧ l.tid ≠ t1 ∧
      (rptGet (sA.table root) (ptIndex 2 va)).isTable = true ∧
      (rptGet (sA.table root) (ptIndex 2 va)).ppn = t1 ∧
      (rptGet (sA.table t1) (ptIndex 1 va)).isTable = true ∧
      (rptGet (sA.table t1) (ptIndex 1 va)).ppn = l.tid ∧
      (rptGet (sA.table l.tid) (ptIndex 0 va)).isTable = false := by
  obtain ⟨hva, hlidx, hit, t1, hsc⟩ := ptGetMut_alloc_cases root va s sA l hwf h
  refine ⟨hva, hlidx, t1, ?_⟩
  rcases hsc with ⟨h1, h2, rfl⟩ |
      ⟨h1, ht1nf, hinv, hfree, hne, htb1, htb0, hframe, _⟩ |
      ⟨hinv, hfree, hne1, hne2, htbr, htb1, htb0, hframe, _⟩
  · have hchild1 : isChild sA root t1 := ⟨ptIndex 2 va, ptIndex_lt 2 va, h1⟩
    have hchild2 : isChild sA t1 l.tid := ⟨ptIndex 1 va, ptIndex_lt 1 va, h2⟩
    obtain ⟨hgr, hgm⟩ := ptWf_grandchild_ne hwf hchild1 hchild2
    exact ⟨ptWf_child_ne_root hwf hchild1, hgr, hgm, h1.1, h1.2, h2.1, h2.2, hit⟩
  · have hchild1 : isChild s root t1 := ⟨ptIndex 2 va, ptIndex_lt 2 va, h1⟩
    have ht1r : t1 ≠ root := ptWf_child_ne_root hwf hchild1
    have hlmem : l.tid ∈ s.free := by rw [hfree]; exact List.mem_cons_self _ _
    have hlr : l.tid ≠ root := by
      intro he
      exact ptWf_root_not_free hwf (he ▸ hlmem)
    have hframe_root : sA.table root = s.table root :=
      hframe root (fun he => ht1r he.symm) (fun he => hlr he.symm)
    refine ⟨ht1r, hlr, fun he => hne he.symm, ?_, ?_, ?_, ?_, hit⟩
    · rw [hframe_root]; exact h1.1
    · rw [hframe_root]; exact h1.2
    · rw [htb1, rptGet_rptSet_self]; exact setTable_isTable _
    · rw [htb1, rptGet_rptSet_self]; exact setTable_ppn _
  · have ht1mem : t1 ∈ s.free := by rw [hfree]; exact List.mem_cons_self _ _
    have hlmem : l.tid ∈ s.free := by
      rw [hfree]; exact List.mem_cons_of_mem _ (List.mem_cons_self _ _)
    have hlr : l.tid ≠ root := by
      intro he
      exact ptWf_root_not_free hwf (he ▸ hlmem)
    refine ⟨fun he => hne1 he.symm, hlr, fun he => hne2 he.symm, ?_, ?_, ?_, ?_, hit⟩
    · rw [htbr, rptGet_rptSet_self]; exact setTable_isTable _
    · rw [htbr, rptGet_rptSet_self]; exact setTable_ppn _
    · rw [htb1, rptGet_rptSet_self]; exact setTable_isTable _
    · rw [htb1, rptGet_rptSet_self]; exact setTable_ppn _

theorem readPte_writePte_self (s : MState) (l : Loc) (p : Pte) :
    (s.writePte l p).readPte l = p := by
  unfold MState.writePte MState.readPte
  rw [table_setTable_self, rptGet_rptSet_self]

theorem table_writePte_ne (s : MState) (l : Loc) (p : Pte) (j : Nat)
    (h : j ≠ l.tid) : (s.writePte l p).table j = s.table j :=
  table_setTable_ne _ _ _ _ h

theorem table_writePte_self (s : MState) (l : Loc) (p : Pte) :
    (s.writePte l p).table l.tid = rptSet (s.table l.tid) l.idx p :=
  table_setTable_self _ _ _

theorem pgrounddown_aligned {va : Nat} (h : va % PGSIZE = 0) :
    pgrounddown va = va := by
  rw [pgrounddown]
  exact Nat.div_mul_cancel (Nat.dvd_of_mod_eq_zero h)

/-- Looking up `va` again after a successful `insert`, also after any
further overwrite of the inserted leaf entry (as `remove` does), finds
the same PTE location. -/
theorem ptInsert_lookup (root va pa : Nat) (perm : PteFlags) (s s1 : MState)
    (hwf : ptWf root s) (hal : va % PGSIZE = 0)
    (hperm : (perm.r || perm.w || perm.x) = true)
    (hrun : ptInsert root s va pa perm = Except.ok (true, s1)) :
    ∃ l : Loc, l.idx = ptIndex 0 va ∧
      s1.readPte l = Pte.setEntry pa perm ∧
      ptGetMut root s1 va false = Except.ok (some l, s1) ∧
      ∀ q : Pte, q.isTable = false →
        ptGetMut root (s1.writePte l q) va false =
          Except.ok (some l, s1.writePte l q) ∧
        (s1.writePte l q).readPte l = q := by
  rw [ptInsert, pgrounddown_aligned hal] at hrun
  rcases hw : ptGetMut root s va true with e | ⟨ol, sA⟩
  · rw [hw] at hrun; cases hrun
  · rcases ol with _ | l
    · simp only [hw, Except.ok.injEq, Prod.mk.injEq] at hrun
      exact Bool.noConfusion hrun.1
    · simp only [hw] at hrun
      by_cases hv : (sA.readPte l).valid
      · rw [if_pos hv] at hrun
        cases hrun
      · rw [if_neg hv] at hrun
        simp only [Except.ok.injEq, Prod.mk.injEq] at hrun
        have hs1 : s1 = sA.writePte l (Pte.setEntry pa perm) := hrun.2.symm
        obtain ⟨hva, hlidx, t1, ht1r, hlr, hlt1, w1t, w1p, w2t, w2p, _⟩ :=
          ptGetMut_alloc_walkFacts root va s sA l hwf hw
        have hleta : (⟨l.tid, ptIndex 0 va⟩ : Loc) = l := by rw [← hlidx]
        have htroot : s1.table root = sA.table root := by
          rw [hs1]
          exact table_writePte_ne _ _ _ _ (Ne.symm hlr)
        have htt1 : s1.table t1 = sA.table t1 := by
          rw [hs1]
          exact table_writePte_ne _ _ _ _ (Ne.symm hlt1)
        have htl : s1.table l.tid = rptSet (sA.table l.tid) l.idx
            (Pte.setEntry pa perm) := by
          rw [hs1]
          exact table_writePte_self _ _ _
        refine ⟨l, hlidx, ?_, ?_, ?_⟩
        · rw [hs1, readPte_writePte_self]
        · have := ptGetMut_read root va t1 l.tid s1 hva
            (by rw [htroot]; exact w1t) (by rw [htroot]; exact w1p)
            (by rw [htt1]; exact w2t) (by rw [htt1]; exact w2p)
            (by rw [htl, ← hlidx, rptGet_rptSet_self]
                exact setEntry_isTable _ hperm)
          rw [hleta] at this
          exact this
        · intro q hq
          constructor
          · have := ptGetMut_read root va t1 l.tid (s1.writePte l q) hva
              (by rw [table_writePte_ne _ _ _ _ (Ne.symm hlr), htroot]; exact w1t)
              (by rw [table_writePte_ne _ _ _ _ (Ne.symm hlr), htroot]; exact w1p)
              (by rw [table_writePte_ne _ _ _ _ (Ne.symm hlt1), htt1]; exact w2t)
              (by rw [table_writePte_ne _ _ _ _ (Ne.symm hlt1), htt1]; exact w2p)
              (by rw [table_writePte_self, ← hlidx, rptGet_rptSet_self]; exact hq)
            rw [hleta] at this
            exact this
          · exact readPte_writePte_self _ _ _

theorem phys_writePte (s : MState) (l : Loc) (p : Pte) (a : Nat) :
    (s.writePte l p).phys a = s.phys a := rfl

theorem table_eq_of_tables_eq {s s' : MState} (h : s'.tables = s.tables)
    (id : Nat) : s'.table id = s.table id := by
  unfold MState.table
  rw [h]

theorem kalloc_spec (s : MState) (p : Nat) (s1 : MState)
    (h : s.kalloc = some (p, s1)) :
    s.free = p :: s1.free ∧ s1.tables = s.tables ∧ s1.phys = s.phys := by
  rw [MState.kalloc] at h
  rcases hf : s.free with _ | ⟨q, rest⟩
  · rw [hf] at h
    cases h
  · rw [hf] at h
    simp only [Option.some.injEq, Prod.mk.injEq] at h
    obtain ⟨hq, hs⟩ := h
    subst hs
    subst hq
    exact ⟨rfl, rfl, rfl⟩

theorem pgroundup_zero : pgroundup 0 = 0 := rfl

theorem setEntry_isUser (pa : Nat) :
    (Pte.setEntry pa rwxuFlags).isUser = true := rfl

/-- A state whose root table is empty and not free is well-formed. -/
theorem ptWf_emptyRoot (root : Nat) (s : MState) (hnodup : s.free.Nodup)
    (hroot : root ∉ s.free) (htab : s.table root = []) : ptWf root s := by
  refine ⟨hnodup, ?_, ?_, ?_⟩
  · intro p hp hlive
    rcases hlive with rfl | ⟨i, hi, hc⟩ | ⟨i, hi, ht, hc⟩
    · exact hroot hp
    · unfold isChildAt at hc
      rw [htab, rptGet_nil, zero_isTable] at hc
      exact Bool.noConfusion hc.1
    · rw [htab, rptGet_nil, zero_isTable] at ht
      exact Bool.noConfusion ht
  · intro i hi ht
    rw [htab, rptGet_nil, zero_isTable] at ht
    exact Bool.noConfusion ht
  · intro i hi ht
    rw [htab, rptGet_nil, zero_isTable] at ht
    exact Bool.noConfusion ht

/-- Well-formedness only looks at the tables and the free list, so it
transfers to any state with the same tables and a free sub-collection. -/
theorem ptWf_of_eq_tables (root : Nat) (s s' : MState) (hwf : ptWf root s)
    (hsub : ∀ p ∈ s'.free, p ∈ s.free) (hnodup : s'.free.Nodup)
    (ht : ∀ id, s'.table id = s.table id) : ptWf root s' := by
  have hlt : ∀ p, liveTable s' root p ↔ liveTable s root p := by
    intro p
    unfold liveTable isChild isChildAt
    simp only [ht]
  refine ⟨hnodup, ?_, ?_, ?_⟩
  · intro p hp hl
    exact hwf.2.1 p (hsub p hp) ((hlt p).mp hl)
  · simp only [ht]
    exact hwf.2.2.1
  · simp only [ht]
    exact hwf.2.2.2

/-- A fresh root page from `RawPageTable::new`: the new state is
well-formed around it, the page came off the free list, its table is
empty, and memory outside the page is untouched. -/
theorem rawPageTableNew_spec (s : MState) (root : Nat) (s1 : MState)
    (hnodup : s.free.Nodup) (h : rawPageTableNew s = some (root, s1)) :
    ptWf root s1 ∧ s.free = root :: s1.free ∧ s1.table root = [] ∧
      (∀ a, a < root * PGSIZE ∨ (root + 1) * PGSIZE ≤ a →
        s1.phys a = s.phys a) := by
  rcases hf : s.free with _ | ⟨p, rest⟩
  · rw [rawPageTableNew, MState.kalloc, hf] at h
    cases h
  · rw [rawPageTableNew, MState.kalloc, hf] at h
    simp only [Option.some.injEq, Prod.mk.injEq] at h
    obtain ⟨hp, hs1⟩ := h
    have hfree1 : s1.free = rest := by
      rw [← hs1]
      rfl
    have htab1 : s1.table root = [] := by
      rw [← hs1, ← hp]
      exact table_setTable_self _ _ _
    have hnd : rest.Nodup ∧ root ∉ rest := by
      rw [hf, hp, List.nodup_cons] at hnodup
      exact ⟨hnodup.2, hnodup.1⟩
    refine ⟨ptWf_emptyRoot root s1 ?_ ?_ htab1, ?_, htab1, ?_⟩
    · rw [hfree1]
      exact hnd.1
    · rw [hfree1]
      exact hnd.2
    · rw [hp, hfree1]
    · intro a ha
      have hcond : ¬(root * PGSIZE ≤ a ∧ a < (root + 1) * PGSIZE) := by
        rcases ha with h2 | h2
        · exact fun hc => absurd (Nat.lt_of_le_of_lt hc.1 h2) (Nat.lt_irrefl _)
        · exact fun hc => absurd (Nat.lt_of_lt_of_le hc.2 h2) (Nat.lt_irrefl _)
      rw [← hs1]
      show (if p * PGSIZE ≤ a ∧ a < (p + 1) * PGSIZE then 0
          else s.phys a) = s.phys a
      rw [hp, if_neg hcond]

/-- A successful `insert` of a leaf preserves well-formedness, consumes a
prefix of the free list, and leaves memory outside the free pages
untouched. -/
theorem ptInsert_preserves (root va pa : Nat) (perm : PteFlags) (s s1 : MState)
    (hwf : ptWf root s) (hperm : (perm.r || perm.w || perm.x) = true)
    (hrun : ptInsert root s va pa perm = Except.ok (true, s1)) :
    ptWf root s1 ∧ (∃ d, s.free = d ++ s1.free) ∧
      (∀ a, (∀ p, p ∈ s.free → a < p * PGSIZE ∨ (p + 1) * PGSIZE ≤ a) →
        s1.phys a = s.phys a) := by
  rw [ptInsert] at hrun
  rcases hw : ptGetMut root s (pgrounddown va) true with e | ⟨ol, sA⟩
  · rw [hw] at hrun
    cases hrun
  rcases ol with _ | l
  · simp only [hw, Except.ok.injEq, Prod.mk.injEq] at hrun
    exact Bool.noConfusion hrun.1
  simp only [hw] at hrun
  by_cases hv : (sA.readPte l).valid
  · rw [if_pos hv] at hrun
    cases hrun
  rw [if_neg hv] at hrun
  simp only [Except.ok.injEq, Prod.mk.injEq] at hrun
  have hs1 : s1 = sA.writePte l (Pte.setEntry pa perm) := hrun.2.symm
  have hq : (Pte.setEntry pa perm).isTable = false := setEntry_isTable pa hperm
  obtain ⟨hva, hlidx, hit, t1, hsc⟩ :=
    ptGetMut_alloc_cases root (pgrounddown va) s sA l hwf hw
  rcases hsc with ⟨h1, h2, hA⟩ |
      ⟨h1, ht1nf, hinv, hfree, hne, htb1, htb0, hframe, hphys⟩ |
      ⟨hinv, hfree, hne1, hne2, htbr, htb1, htb0, hframe, hphys⟩
  · rw [hA] at hs1
    have tedge : ∀ p i c, isChildAt s1 p i c → isChildAt s p i c := by
      intro p i c hc
      rw [hs1] at hc
      unfold isChildAt at hc ⊢
      by_cases hp : p = l.tid
      · subst hp
        rw [table_writePte_self] at hc
        by_cases hi2 : i = l.idx
        · subst hi2
          rw [rptGet_rptSet_self, hq] at hc
          exact Bool.noConfusion hc.1
        · rwa [rptGet_rptSet_ne _ _ _ _ hi2] at hc
      · rwa [table_writePte_ne _ _ _ _ hp] at hc
    refine ⟨⟨?_, ?_, ?_, ?_⟩, ⟨[], ?_⟩, ?_⟩
    · rw [hs1, free_writePte]
      exact hwf.1
    · intro p hp hlive
      rw [hs1, free_writePte] at hp
      rcases hlive with rfl | ⟨i, hi, hc⟩ | ⟨i, hi, ht, j, hj, hc⟩
      · exact ptWf_root_not_free hwf hp
      · exact hwf.2.1 p hp (liveTable_child ⟨i, hi, tedge _ _ _ hc⟩)
      · have h1' := tedge _ _ _ ⟨ht, rfl⟩
        have h2' := tedge _ _ _ hc
        exact hwf.2.1 p hp
          (liveTable_grandchild ⟨i, hi, h1'⟩ ⟨j, hj, h2'⟩)
    · intro i hi ht
      have h' := tedge root i _ ⟨ht, rfl⟩
      intro he
      exact hwf.2.2.1 i hi h'.1 (h'.2.trans he)
    · intro i hi ht j hj ht2
      have h1' := tedge root i _ ⟨ht, rfl⟩
      have h2' := tedge _ j _ ⟨ht2, rfl⟩
      have key := hwf.2.2.2 i hi h1'.1 j hj (by rw [h1'.2]; exact h2'.1)
      rw [h1'.2] at key
      rw [h2'.2] at key
      exact key
    · rw [hs1, free_writePte]
      rfl
    · intro a ha
      rw [hs1, phys_writePte]
  · have hmemL : l.tid ∈ s.free := by
      rw [hfree]
      exact List.mem_cons_self _ _
    have hnodA : sA.free.Nodup ∧ l.tid ∉ sA.free := by
      have hn := hwf.1
      rw [hfree, List.nodup_cons] at hn
      exact ⟨hn.2, hn.1⟩
    have hlr : l.tid ≠ root := fun he => ptWf_root_not_free hwf (he ▸ hmemL)
    have ht1r : t1 ≠ root := ptWf_child_ne_root hwf ⟨_, ptIndex_lt 2 _, h1⟩
    have hlt1 : l.tid ≠ t1 := fun he => hne he.symm
    have hT_l : s1.table l.tid = rptSet [] l.idx (Pte.setEntry pa perm) := by
      rw [hs1, table_writePte_self, htb0]
    have hT_t1 : s1.table t1 = rptSet (s.table t1) (ptIndex 1 (pgrounddown va))
        (Pte.setTable (l.tid * PGSIZE)) := by
      rw [hs1, table_writePte_ne _ _ _ _ hne, htb1]
    have hT_other : ∀ j, j ≠ t1 → j ≠ l.tid → s1.table j = s.table j := by
      intro j hj1 hj2
      rw [hs1, table_writePte_ne _ _ _ _ hj2, hframe j hj1 hj2]
    have tedge : ∀ p i c, isChildAt s1 p i c →
        (p ≠ l.tid ∧ isChildAt s p i c) ∨
        (p = t1 ∧ i = ptIndex 1 (pgrounddown va) ∧ c = l.tid) := by
      intro p i c hc
      by_cases hpL : p = l.tid
      · exfalso
        subst hpL
        unfold isChildAt at hc
        rw [hT_l] at hc
        by_cases hiI : i = l.idx
        · subst hiI
          rw [rptGet_rptSet_self, hq] at hc
          exact Bool.noConfusion hc.1
        · rw [rptGet_rptSet_ne _ _ _ _ hiI, rptGet_nil, zero_isTable] at hc
          exact Bool.noConfusion hc.1
      · by_cases hpT : p = t1
        · subst hpT
          by_cases hiI : i = ptIndex 1 (pgrounddown va)
          · subst hiI
            refine Or.inr ⟨rfl, rfl, ?_⟩
            unfold isChildAt at hc
            rw [hT_t1, rptGet_rptSet_self] at hc
            rw [← hc.2, setTable_ppn]
          · left
            refine ⟨hpL, ?_⟩
            unfold isChildAt at hc ⊢
            rwa [hT_t1, rptGet_rptSet_ne _ _ _ _ hiI] at hc
        · left
          refine ⟨hpL, ?_⟩
          unfold isChildAt at hc ⊢
          rwa [hT_other p hpT hpL] at hc
    refine ⟨⟨?_, ?_, ?_, ?_⟩, ⟨[l.tid], ?_⟩, ?_⟩
    · rw [hs1, free_writePte]
      exact hnodA.1
    · intro p hp hlive
      rw [hs1, free_writePte] at hp
      have hpS : p ∈ s.free := by
        rw [hfree]
        exact List.mem_cons_of_mem _ hp
      have hpL : p ≠ l.tid := fun he => hnodA.2 (he ▸ hp)
      rcases hlive with rfl | ⟨i, hi, hc⟩ | ⟨i, hi, ht, j, hj, hc⟩
      · exact ptWf_root_not_free hwf hpS
      · rcases tedge _ _ _ hc with ⟨_, hcs⟩ | ⟨_, _, hcl⟩
        · exact hwf.2.1 p hpS (liveTable_child ⟨i, hi, hcs⟩)
        · exact hpL hcl
      · rcases tedge _ _ _ ⟨ht, rfl⟩ with ⟨_, h1s⟩ | ⟨hrt, _, _⟩
        · rcases tedge _ _ _ hc with ⟨_, h2s⟩ | ⟨_, _, hcl⟩
          · exact hwf.2.1 p hpS
              (liveTable_grandchild ⟨i, hi, h1s⟩ ⟨j, hj, h2s⟩)
          · exact hpL hcl
        · exact ht1r hrt.symm
    · intro i hi ht
      rcases tedge root i _ ⟨ht, rfl⟩ with ⟨_, h'⟩ | ⟨hrt, _, _⟩
      · intro he
        exact hwf.2.2.1 i hi h'.1 (h'.2.trans he)
      · exact absurd hrt.symm ht1r
    · intro i hi ht j hj ht2
      rcases tedge root i _ ⟨ht, rfl⟩ with ⟨_, h1'⟩ | ⟨hrt, _, _⟩
      · rcases tedge _ j _ ⟨ht2, rfl⟩ with ⟨_, h2'⟩ | ⟨hmt, _, hcl⟩
        · have key := hwf.2.2.2 i hi h1'.1 j hj (by rw [h1'.2]; exact h2'.1)
          rw [h1'.2] at key
          rw [h2'.2] at key
          exact key
        · rw [hcl, hmt]
          exact ⟨hlr, hlt1⟩
      · exact absurd hrt.symm ht1r
    · rw [hs1, free_writePte, hfree]
      rfl
    · intro a ha
      rw [hs1, phys_writePte]
      exact hphys a (ha _ hmemL)
  · have hmemT : t1 ∈ s.free := by
      rw [hfree]
      exact List.mem_cons_self _ _
    have hmemL : l.tid ∈ s.free := by
      rw [hfree]
      exact List.mem_cons_of_mem _ (List.mem_cons_self _ _)
    have hnod : sA.free.Nodup ∧ t1 ∉ sA.free ∧ l.tid ∉ sA.free := by
      have hn := hwf.1
      rw [hfree, List.nodup_cons, List.nodup_cons] at hn
      exact ⟨hn.2.2, fun hm => hn.1 (List.mem_cons_of_mem _ hm), hn.2.1⟩
    have ht1r : t1 ≠ root := fun he => hne1 he.symm
    have hlr : l.tid ≠ root := fun he => ptWf_root_not_free hwf (he ▸ hmemL)
    have hlt1 : l.tid ≠ t1 := fun he => hne2 he.symm
    have hrl : root ≠ l.tid := fun he => hlr he.symm
    have hT_l : s1.table l.tid = rptSet [] l.idx (Pte.setEntry pa perm) := by
      rw [hs1, table_writePte_self, htb0]
    have hT_t1 : s1.table t1 = rptSet [] (ptIndex 1 (pgrounddown va))
        (Pte.setTable (l.tid * PGSIZE)) := by
      rw [hs1, table_writePte_ne _ _ _ _ hne2, htb1]
    have hT_root : s1.table root = rptSet (s.table root)
        (ptIndex 2 (pgrounddown va)) (Pte.setTable (t1 * PGSIZE)) := by
      rw [hs1, table_writePte_ne _ _ _ _ hrl, htbr]
    have hT_other : ∀ j, j ≠ root → j ≠ t1 → j ≠ l.tid →
        s1.table j = s.table j := by
      intro j h1j h2j h3j
      rw [hs1, table_writePte_ne _ _ _ _ h3j, hframe j h1j h2j h3j]
    have tedge : ∀ p i c, isChildAt s1 p i c →
        (p ≠ l.tid ∧ p ≠ t1 ∧ isChildAt s p i c) ∨
        (p = root ∧ i = ptIndex 2 (pgrounddown va) ∧ c = t1) ∨
        (p = t1 ∧ i = ptIndex 1 (pgrounddown va) ∧ c = l.tid) := by
      intro p i c hc
      by_cases hpL : p = l.tid
      · exfalso
        subst hpL
        unfold isChildAt at hc
        rw [hT_l] at hc
        by_cases hiI : i = l.idx
        · subst hiI
          rw [rptGet_rptSet_self, hq] at hc
          exact Bool.noConfusion hc.1
        · rw [rptGet_rptSet_ne _ _ _ _ hiI, rptGet_nil, zero_isTable] at hc
          exact Bool.noConfusion hc.1
      · by_cases hpT : p = t1
        · subst hpT
          unfold isChildAt at hc
          rw [hT_t1] at hc
          by_cases hiI : i = ptIndex 1 (pgrounddown va)
          · subst hiI
            rw [rptGet_rptSet_self] at hc
            exact Or.inr (Or.inr ⟨rfl, rfl, by rw [← hc.2, setTable_ppn]⟩)
          · rw [rptGet_rptSet_ne _ _ _ _ hiI, rptGet_nil, zero_isTable] at hc
            exact Bool.noConfusion hc.1
        · by_cases hpR : p = root
          · subst hpR
            unfold isChildAt at hc ⊢
            rw [hT_root] at hc
            by_cases hiI : i = ptIndex 2 (pgrounddown va)
            · subst hiI
              rw [rptGet_rptSet_self] at hc
              exact Or.inr (Or.inl ⟨rfl, rfl, by rw [← hc.2, setTable_ppn]⟩)
            · rw [rptGet_rptSet_ne _ _ _ _ hiI] at hc
              exact Or.inl ⟨hpL, hpT, hc⟩
          · left
            refine ⟨hpL, hpT, ?_⟩
            unfold isChildAt at hc ⊢
            rwa [hT_other p hpR hpT hpL] at hc
    refine ⟨⟨?_, ?_, ?_, ?_⟩, ⟨[t1, l.tid], ?_⟩, ?_⟩
    · rw [hs1, free_writePte]
      exact hnod.1
    · intro p hp hlive
      rw [hs1, free_writePte] at hp
      have hpS : p ∈ s.free := by
        rw [hfree]
        exact List.mem_cons_of_mem _ (List.mem_cons_of_mem _ hp)
      have hpT : p ≠ t1 := fun he => hnod.2.1 (he ▸ hp)
      have hpL : p ≠ l.tid := fun he => hnod.2.2 (he ▸ hp)
      rcases hlive with rfl | ⟨i, hi, hc⟩ | ⟨i, hi, ht, j, hj, hc⟩
      · exact ptWf_root_not_free hwf hpS
      · rcases tedge _ _ _ hc with ⟨_, _, hcs⟩ | ⟨_, _, hct⟩ | ⟨_, _, hcl⟩
        · exact hwf.2.1 p hpS (liveTable_child ⟨i, hi, hcs⟩)
        · exact hpT hct
        · exact hpL hcl
      · rcases tedge _ _ _ ⟨ht, rfl⟩ with ⟨_, _, h1s⟩ | ⟨_, _, hmt⟩ | ⟨hrt, _, _⟩
        · rcases tedge _ _ _ hc with ⟨_, _, h2s⟩ | ⟨_, _, hct⟩ | ⟨_, _, hcl⟩
          · exact hwf.2.1 p hpS
              (liveTable_grandchild ⟨i, hi, h1s⟩ ⟨j, hj, h2s⟩)
          · exact hpT hct
          · exact hpL hcl
        · rcases tedge _ _ _ hc with ⟨_, hmt', _⟩ | ⟨_, _, hct⟩ | ⟨_, _, hcl⟩
          · exact hmt' hmt
          · exact hpT hct
          · exact hpL hcl
        · exact hne1 hrt
    · intro i hi ht
      rcases tedge root i _ ⟨ht, rfl⟩ with ⟨_, _, h'⟩ | ⟨_, _, hmt⟩ | ⟨hrt, _, _⟩
      · intro he
        exact hwf.2.2.1 i hi h'.1 (h'.2.trans he)
      · rw [hmt]
        exact ht1r
      · exact absurd hrt hne1
    · intro i hi ht j hj ht2
      rcases tedge root i _ ⟨ht, rfl⟩ with ⟨_, _, h1'⟩ | ⟨_, _, hmt⟩ | ⟨hrt, _, _⟩
      · have hmlive := liveTable_child ⟨i, List.mem_range.mp hi, h1'⟩
        have hmfree := ptWf_live_not_free hwf hmlive
        rcases tedge _ j _ ⟨ht2, rfl⟩ with ⟨_, _, h2'⟩ | ⟨hmr, _, hct⟩ | ⟨hmt2, _, _⟩
        · have key := hwf.2.2.2 i hi h1'.1 j hj (by rw [h1'.2]; exact h2'.1)
          rw [h1'.2] at key
          rw [h2'.2] at key
          exact key
        · rw [hct, hmr]
          exact ⟨ht1r, ht1r⟩
        · exact absurd hmemT (hmt2 ▸ hmfree)
      · rcases tedge _ j _ ⟨ht2, rfl⟩ with ⟨_, hmt', _⟩ | ⟨hmr, _, _⟩ | ⟨_, _, hcl⟩
        · exact absurd hmt hmt'
        · exact absurd (hmr.symm.trans hmt) hne1
        · rw [hcl, hmt]
          exact ⟨hlr, hlt1⟩
      · exact absurd hrt hne1
    · rw [hs1, free_writePte, hfree]
      rfl
    · intro a ha
      rw [hs1, phys_writePte]
      exact hphys a (ha _ hmemT) (ha _ hmemL)

/-- Installing the trampoline and trap-frame mappings preserves
well-formedness and only consumes free pages. -/
theorem userPageInit_preserves (root : Nat) (s : MState) (tf tp : Nat)
    (s2 : MState) (hwf : ptWf root s)
    (hrun : userPageInit root s tf tp = Except.ok (true, s2)) :
    ptWf root s2 ∧ ∃ d, s.free = d ++ s2.free := by
  rw [userPageInit] at hrun
  rcases h1 : ptInsert root s TRAMPOLINE tp ⟨true, false, true, false⟩
    with e | ⟨b, sm⟩
  · rw [h1] at hrun
    cases hrun
  cases b
  · simp only [h1, Except.ok.injEq, Prod.mk.injEq] at hrun
    exact Bool.noConfusion hrun.1
  · simp only [h1] at hrun
    obtain ⟨hwfm, ⟨dm, hdm⟩, _⟩ :=
      ptInsert_preserves root TRAMPOLINE tp _ s sm hwf (by decide) h1
    obtain ⟨hwf2, ⟨d2, hd2⟩, _⟩ :=
      ptInsert_preserves root TRAPFRAME tf _ sm s2 hwfm (by decide) hrun
    refine ⟨hwf2, dm ++ d2, ?_⟩
    rw [hdm, hd2, List.append_assoc]

/-- A successful `push_page` grows the size by one page and is exactly a
successful `insert` of the page at the old top of the memory. -/
theorem pushPage_insert (um : UserMemory) (s : MState) (page : Nat)
    (perm : PteFlags) (um1 : UserMemory) (s1 : MState)
    (hrun : pushPage um s page perm = Except.ok (true, um1, s1)) :
    um1 = ⟨um.root, pgroundup um.size + PGSIZE⟩ ∧
      ptInsert um.root s (pgroundup um.size) (page * PGSIZE) perm =
        Except.ok (true, s1) := by
  unfold pushPage at hrun
  rcases hI : ptInsert um.root s (pgroundup um.size) (page * PGSIZE) perm
    with e | ⟨b, s2⟩
  · rw [hI] at hrun
    cases hrun
  cases b
  · simp only [hI, Except.ok.injEq, Prod.mk.injEq] at hrun
    exact Bool.noConfusion hrun.1
  · simp only [hI, Except.ok.injEq, Prod.mk.injEq, true_and] at hrun
    refine ⟨hrun.1.symm.trans rfl, ?_⟩
    rw [hrun.2]

/-- `UserMemory::new` with an initial image of at least a page hits the
`assert!(src.len() < PGSIZE)` panic, regardless of how much the allocator
can supply. -/
theorem umNew_large_src (tf tp : Nat) (src : List Nat) (s : MState)
    (hlen : PGSIZE ≤ src.length) (r0 : Nat) (s1 : MState)
    (hN : rawPageTableNew s = some (r0, s1)) (s2 : MState)
    (hU : userPageInit r0 s1 tf tp = Except.ok (true, s2)) :
    umNew tf (some src) tp s = Except.error "new: more than a page" := by
  rw [umNew]
  simp only [hN, hU]
  rw [if_pos hlen]

/-- A machine state with three free pages and no tables, enough for
`UserMemory::new` to reach the initial-image size check. -/
def c8s : MState := ⟨[1, 2, 3], [], fun _ => 0⟩

/-- A machine state with six free pages, enough for `UserMemory::new` to
build a memory with a one-page initial image. -/
def c8w : MState := ⟨[1, 2, 3, 4, 5, 6], [], fun _ => 0⟩

set_option maxRecDepth 100000 in
set_option maxHeartbeats 1000000 in
/-- C8 counterexample: an initial image of exactly `PGSIZE` bytes
(`|src| ≤ PGSIZE` as the claim allows) makes `UserMemory::new` panic with
`"new: more than a page"`, because the source asserts `src.len() <
PGSIZE`, strictly. -/
theorem c8_new_counterexample :
    umNew 20 (some (List.replicate PGSIZE 0)) (21 * PGSIZE) c8s =
      Except.error "new: more than a page" :=
  umNew_large_src 20 (21 * PGSIZE) _ c8s (by simp) _ _ rfl _ rfl

/-- C8 (amended): for an initial image of size strictly less than a page,
a `UserMemory::new(trap_frame, Some(src), ..)` call that returns a built
memory yields size `PGSIZE`, and page 0 is mapped to a physical page with
permissions `R|W|X|U` whose first `|src|` bytes equal `src` and whose
remaining bytes are zero. -/
theorem c8_user_memory_new (trapFrame trampolinePa : Nat) (src : List Nat)
    (s : MState) (um : UserMemory) (s' : MState)
    (hnodup : s.free.Nodup)
    (hrun : umNew trapFrame (some src) trampolinePa s =
      Except.ok (some um, s')) :
    src.length < PGSIZE ∧ um.size = PGSIZE ∧
    ∃ (l : Loc) (page : Nat),
      ptGetMut um.root s' 0 false = Except.ok (some l, s') ∧
      s'.readPte l = Pte.setEntry (page * PGSIZE) rwxuFlags ∧
      getSlice um s' 0 = Except.ok (some (page * PGSIZE)) ∧
      (∀ i, i < src.length → s'.phys (page * PGSIZE + i) = src.getD i 0) ∧
      (∀ i, src.length ≤ i → i < PGSIZE →
        s'.phys (page * PGSIZE + i) = 0) := by
  rw [umNew] at hrun
  rcases hN : rawPageTableNew s with _ | ⟨root0, s1⟩
  · simp only [hN, Except.ok.injEq, Prod.mk.injEq] at hrun
    exact Option.noConfusion hrun.1
  simp only [hN] at hrun
  obtain ⟨hwf1, hfree1, htab1, _⟩ := rawPageTableNew_spec s root0 s1 hnodup hN
  rcases hU : userPageInit root0 s1 trapFrame trampolinePa with e | ⟨b, s2⟩
  · rw [hU] at hrun
    cases hrun
  cases b
  · simp only [hU, Except.ok.injEq, Prod.mk.injEq] at hrun
    exact Option.noConfusion hrun.1
  simp only [hU] at hrun
  obtain ⟨hwf2, d2, hd2⟩ :=
    userPageInit_preserves root0 s1 trapFrame trampolinePa s2 hwf1 hU
  by_cases hlen : PGSIZE ≤ src.length
  · rw [if_pos hlen] at hrun
    cases hrun
  rw [if_neg hlen] at hrun
  rcases hK : s2.kalloc with _ | ⟨page, s3⟩
  · rw [hK] at hrun
    cases hrun
  simp only [hK] at hrun
  obtain ⟨hfree2, htabs3, hphys3⟩ := kalloc_spec s2 page s3 hK
  have hnod1 : s1.free.Nodup := by
    rw [hfree1, List.nodup_cons] at hnodup
    exact hnodup.2
  have hnod2 : s2.free.Nodup := by
    rw [hd2] at hnod1
    exact List.Nodup.of_append_right hnod1
  have hnod3 : s3.free.Nodup ∧ page ∉ s3.free := by
    rw [hfree2, List.nodup_cons] at hnod2
    exact ⟨hnod2.2, hnod2.1⟩
  set s4 : MState := (s3.zeroPage page).physWriteList (page * PGSIZE) src
    with hs4
  rcases hP : pushPage ⟨root0, 0⟩ s4 page rwxuFlags with e | ⟨b2, um1, s5⟩
  · rw [hP] at hrun
    cases hrun
  cases b2
  · rw [hP] at hrun
    cases hrun
  simp only [hP, Except.ok.injEq, Prod.mk.injEq, Option.some.injEq] at hrun
  obtain ⟨hum, hs5⟩ := hrun
  obtain ⟨hum1, hI⟩ := pushPage_insert _ _ _ _ _ _ hP
  have hI2 := hI
  dsimp only at hI2
  rw [pgroundup_zero] at hI2
  have hum2 := hum1
  dsimp only at hum2
  rw [pgroundup_zero, Nat.zero_add] at hum2
  have hwf4 : ptWf root0 s4 := by
    apply ptWf_of_eq_tables root0 s2 s4 hwf2
    · intro p hp
      rw [hfree2]
      exact List.mem_cons_of_mem _ hp
    · exact hnod3.1
    · intro id
      exact table_eq_of_tables_eq htabs3 id
  obtain ⟨l, hlidx, hread, hwalk, _⟩ :=
    ptInsert_lookup root0 0 (page * PGSIZE) rwxuFlags s4 s5 hwf4
      (Nat.zero_mod _) (by decide) hI2
  have hframe := (ptInsert_preserves root0 0 (page * PGSIZE) rwxuFlags s4 s5
    hwf4 (by decide) hI2).2.2
  have hdisj : ∀ i, i < PGSIZE → ∀ p, p ∈ s4.free →
      page * PGSIZE + i < p * PGSIZE ∨
        (p + 1) * PGSIZE ≤ page * PGSIZE + i := by
    intro i hi p hp
    have hpm : p ∈ s3.free := hp
    have hnep : p ≠ page := fun he => hnod3.2 (he ▸ hpm)
    rcases Nat.lt_or_ge p page with h2 | h2
    · right
      have h3 : (p + 1) * PGSIZE ≤ page * PGSIZE :=
        Nat.mul_le_mul_right PGSIZE h2
      exact Nat.le_trans h3 (Nat.le_add_right _ _)
    · left
      have h4 : page < p := Nat.lt_of_le_of_ne h2 (fun he => hnep he.symm)
      have h5 : (page + 1) * PGSIZE ≤ p * PGSIZE :=
        Nat.mul_le_mul_right PGSIZE h4
      have h6 : page * PGSIZE + i < (page + 1) * PGSIZE := by
        rw [Nat.succ_mul]
        exact Nat.add_lt_add_left hi _
      exact Nat.lt_of_lt_of_le h6 h5
  have hphys54 : ∀ i, i < PGSIZE →
      s5.phys (page * PGSIZE + i) = s4.phys (page * PGSIZE + i) := by
    intro i hi
    exact hframe _ (fun p hp => hdisj i hi p hp)
  have hs4phys : ∀ i, i < PGSIZE →
      s4.phys (page * PGSIZE + i) =
        if i < src.length then src.getD i 0 else 0 := by
    intro i hi
    show (if page * PGSIZE ≤ page * PGSIZE + i ∧
          page * PGSIZE + i < page * PGSIZE + src.length then
        src.getD (page * PGSIZE + i - page * PGSIZE) 0
      else (s3.zeroPage page).phys (page * PGSIZE + i)) = _
    by_cases hc : i < src.length
    · rw [if_pos ⟨Nat.le_add_right _ _, Nat.add_lt_add_left hc _⟩,
        if_pos hc, Nat.add_sub_cancel_left]
    · rw [if_neg (fun hh => hc (Nat.lt_of_add_lt_add_left hh.2)), if_neg hc]
      show (if page * PGSIZE ≤ page * PGSIZE + i ∧
            page * PGSIZE + i < (page + 1) * PGSIZE then 0
          else s3.phys (page * PGSIZE + i)) = 0
      rw [if_pos ⟨Nat.le_add_right _ _, by
        rw [Nat.succ_mul]
        exact Nat.add_lt_add_left hi _⟩]
  have hTF : ¬ TRAPFRAME ≤ 0 := by decide
  have hgpa : (Pte.setEntry (page * PGSIZE) rwxuFlags).getPa =
      page * PGSIZE := by
    show page * PGSIZE / PGSIZE * PGSIZE = page * PGSIZE
    rw [Nat.div_mul_cancel ⟨page, Nat.mul_comm page PGSIZE⟩]
  have hsrclt : src.length < PGSIZE := Nat.not_le.mp hlen
  subst hum
  subst hs5
  refine ⟨hsrclt, ?_, l, page, ?_, hread, ?_, ?_, ?_⟩
  · rw [hum2]
  · rw [hum2]
    exact hwalk
  · have hw2 : ptGetMut (⟨root0, PGSIZE⟩ : UserMemory).root s5 0 false =
        Except.ok (some l, s5) := hwalk
    rw [getSlice, if_neg hTF, hum2, hw2]
    simp only [hread, setEntry_isUser, Bool.not_true, Bool.false_eq_true,
      if_false, hgpa]
  · intro i hi
    rw [hphys54 i (Nat.lt_trans hi hsrclt),
      hs4phys i (Nat.lt_trans hi hsrclt), if_pos hi]
  · intro i hi1 hi2
    rw [hphys54 i hi2, hs4phys i hi2, if_neg (Nat.not_lt.mpr hi1)]

set_option maxRecDepth 100000 in
set_option maxHeartbeats 1000000 in
theorem c8_user_memory_new_witness :
    c8w.free.Nodup ∧
    ∃ (um : UserMemory) (s' : MState),
      umNew 20 (some [9, 8, 7]) (21 * PGSIZE) c8w = Except.ok (some um, s') ∧
      (([9, 8, 7] : List Nat).length < PGSIZE ∧ um.size = PGSIZE ∧
        ∃ (l : Loc) (page : Nat),
          ptGetMut um.root s' 0 false = Except.ok (some l, s') ∧
          s'.readPte l = Pte.setEntry (page * PGSIZE) rwxuFlags ∧
          getSlice um s' 0 = Except.ok (some (page * PGSIZE)) ∧
          (∀ i, i < ([9, 8, 7] : List Nat).length →
            s'.phys (page * PGSIZE + i) = [9, 8, 7].getD i 0) ∧
          (∀ i, ([9, 8, 7] : List Nat).length ≤ i → i < PGSIZE →
            s'.phys (page * PGSIZE + i) = 0)) :=
  ⟨by decide, _, _, rfl,
    c8_user_memory_new 20 (21 * PGSIZE) [9, 8, 7] c8w _ _ (by decide) rfl⟩

theorem pgroundup_ge (a : Nat) : a ≤ pgroundup a := by
  have h : a + PGSIZE - 1 < (a + PGSIZE - 1) / PGSIZE * PGSIZE + PGSIZE :=
    Nat.lt_div_mul_add (by decide)
  have h1 : a + PGSIZE - 1 + 1 = a + PGSIZE :=
    Nat.sub_add_cancel (Nat.le_trans (by decide) (Nat.le_add_left PGSIZE a))
  have h2 : a + PGSIZE ≤ pgroundup a + PGSIZE := by
    rw [pgroundup, ← h1]
    exact h
  exact Nat.le_of_add_le_add_right h2

/-- A failing `push_page` leaves the memory value unchanged. -/
theorem pushPage_false (um : UserMemory) (s : MState) (page : Nat)
    (perm : PteFlags) (um1 : UserMemory) (s1 : MState)
    (hrun : pushPage um s page perm = Except.ok (false, um1, s1)) :
    um1 = um := by
  unfold pushPage at hrun
  rcases hI : ptInsert um.root s (pgroundup um.size) (page * PGSIZE) perm
    with e | ⟨b, s2⟩
  · rw [hI] at hrun
    cases hrun
  cases b
  · simp only [hI, Except.ok.injEq, Prod.mk.injEq, true_and] at hrun
    exact hrun.1.symm
  · simp only [hI, Except.ok.injEq, Prod.mk.injEq] at hrun
    exact Bool.noConfusion hrun.1

/-- The allocation loop never shrinks the memory. -/
theorem allocLoop_size_mono (fuel : Nat) :
    ∀ (newsz : Nat) (um : UserMemory) (s : MState) (b : Bool)
      (um1 : UserMemory) (s1 : MState),
      allocLoop fuel newsz um s = Except.ok (b, um1, s1) →
      um.size ≤ um1.size := by
  induction fuel with
  | zero =>
    intro newsz um s b um1 s1 h
    simp only [allocLoop, Except.ok.injEq, Prod.mk.injEq] at h
    exact Nat.le_of_eq (congrArg UserMemory.size h.2.1)
  | succ fuel ih =>
    intro newsz um s b um1 s1 h
    simp only [allocLoop] at h
    by_cases hlt : pgroundup um.size < pgroundup newsz
    · rw [if_pos hlt] at h
      rcases hK : s.kalloc with _ | ⟨page, sk⟩
      · simp only [hK, Except.ok.injEq, Prod.mk.injEq] at h
        exact Nat.le_of_eq (congrArg UserMemory.size h.2.1)
      · simp only [hK] at h
        rcases hP : pushPage um (sk.zeroPage page) page rwxuFlags
          with e | ⟨b2, um2, s2⟩
        · rw [hP] at h
          cases h
        cases b2
        · simp only [hP, Except.ok.injEq, Prod.mk.injEq] at h
          have h5 : um1 = um :=
            h.2.1.symm.trans (pushPage_false um _ page rwxuFlags um2 s2 hP)
          exact Nat.le_of_eq (congrArg UserMemory.size h5.symm)
        · simp only [hP] at h
          have h2 := ih newsz um2 s2 b um1 s1 h
          have h3 := (pushPage_insert _ _ _ _ _ _ hP).1
          have h4 : um.size ≤ um2.size := by
            rw [h3]
            show um.size ≤ pgroundup um.size + PGSIZE
            exact Nat.le_trans (pgroundup_ge um.size) (Nat.le_add_right _ _)
          exact Nat.le_trans h4 h2
    · rw [if_neg hlt] at h
      simp only [Except.ok.injEq, Prod.mk.injEq] at h
      exact Nat.le_of_eq (congrArg UserMemory.size h.2.1)

/-- A successful `dealloc` either was a no-op or sets the size to the
target. -/
theorem umDealloc_size (um : UserMemory) (s : MState) (n : Nat)
    (r : Nat) (um2 : UserMemory) (s2 : MState)
    (hrun : umDealloc um s n = Except.ok (r, um2, s2)) :
    (um.size ≤ n ∧ um2 = um) ∨ um2.size = n := by
  rw [umDealloc] at hrun
  by_cases hle : um.size ≤ n
  · rw [if_pos hle] at hrun
    simp only [Except.ok.injEq, Prod.mk.injEq] at hrun
    exact Or.inl ⟨hle, hrun.2.1.symm⟩
  · rw [if_neg hle] at hrun
    rcases hD : deallocLoop ((pgroundup um.size - pgroundup n) / PGSIZE) n um s
      with e | ⟨um3, s3⟩
    · rw [hD] at hrun
      cases hrun
    · simp only [hD, Except.ok.injEq, Prod.mk.injEq] at hrun
      right
      rw [← hrun.2.1]

/-- C3: `alloc(newsz)` with `newsz` at most the current size is a no-op
returning the current size; and when the loop fails to get a page, the
rollback restores the size that the memory had before the call. -/
theorem c3_alloc (um : UserMemory) (s : MState) (newsz : Nat) :
    (newsz ≤ um.size → umAlloc um s newsz = Except.ok (some um.size, um, s)) ∧
    (∀ um2 s2, umAlloc um s newsz = Except.ok (none, um2, s2) →
      um2.size = um.size) := by
  constructor
  · intro hle
    rw [umAlloc, if_pos hle]
  · intro um2 s2 hrun
    rw [umAlloc] at hrun
    by_cases hle : newsz ≤ um.size
    · rw [if_pos hle] at hrun
      simp only [Except.ok.injEq, Prod.mk.injEq] at hrun
      exact Option.noConfusion hrun.1
    rw [if_neg hle] at hrun
    rcases hA : allocLoop ((pgroundup newsz - pgroundup um.size) / PGSIZE)
        newsz um s with e | ⟨b, um1, s1⟩
    · rw [hA] at hrun
      cases hrun
    cases b
    · simp only [hA] at hrun
      rcases hD : umDealloc um1 s1 um.size with e | ⟨⟨r3, um3, s3⟩⟩
      · rw [hD] at hrun
        cases hrun
      simp only [hD, Except.ok.injEq, Prod.mk.injEq, true_and] at hrun
      have hmono := allocLoop_size_mono _ _ um s false um1 s1 hA
      rcases umDealloc_size um1 s1 um.size r3 um3 s3 hD with ⟨hle2, heq⟩ | hsz
      · rw [← hrun.1, heq]
        exact Nat.le_antisymm hle2 hmono
      · rw [← hrun.1]
        exact hsz
    · simp only [hA, Except.ok.injEq, Prod.mk.injEq] at hrun
      exact Option.noConfusion hrun.1

/-- A machine state for exercising `alloc`: page 1 is the (empty) root
table and the allocator holds pages 7 and 8. -/
def c3s : MState := ⟨[7, 8], [(1, [])], fun _ => 0⟩

/-- C3 counterexample: growing an empty memory by two pages with only two
free pages fails (`alloc` returns `Err` and the size is rolled back to
0), but the allocator ends with only page 7 free: page 8 was turned into
an intermediate page-table page during the failed call and is never
returned. -/
theorem c3_alloc_counterexample :
    (umAlloc ⟨1, 0⟩ c3s (2 * PGSIZE)).map
      (fun r => (r.1, r.2.1, r.2.2.free, r.2.2.tables.map Prod.fst)) =
      Except.ok (none, ⟨1, 0⟩, [7], [1, 8]) := rfl

theorem c3_alloc_witness :
    (umAlloc ⟨1, 0⟩ c3s 0 = Except.ok (some 0, ⟨1, 0⟩, c3s)) ∧
    ∃ (um2 : UserMemory) (s2 : MState),
      umAlloc ⟨1, 0⟩ c3s (2 * PGSIZE) = Except.ok (none, um2, s2) ∧
      um2.size = 0 :=
  ⟨(c3_alloc ⟨1, 0⟩ c3s 0).1 (by decide),
    ⟨_, _, rfl, (c3_alloc ⟨1, 0⟩ c3s (2 * PGSIZE)).2 _ _ rfl⟩⟩

theorem getSlice_high (um : UserMemory) (s : MState) (va : Nat)
    (h : TRAPFRAME ≤ va) : getSlice um s va = Except.ok none := by
  rw [getSlice, if_pos h]

/-- A page below `TRAPFRAME` ends at least a page before it
(`TRAPFRAME` is page-aligned). -/
theorem aligned_lt_trapframe {dst : Nat} (h : pgrounddown dst < TRAPFRAME) :
    pgrounddown dst + PGSIZE ≤ TRAPFRAME := by
  have hT : TRAPFRAME = (2 ^ 27 - 2) * PGSIZE := rfl
  rw [pgrounddown] at h ⊢
  rw [hT] at h ⊢
  have h1 : dst / PGSIZE < 2 ^ 27 - 2 := by
    by_contra hc
    exact absurd h (Nat.not_lt.mpr
      (Nat.mul_le_mul_right PGSIZE (Nat.not_lt.mp hc)))
  have h2 : (dst / PGSIZE + 1) * PGSIZE ≤ (2 ^ 27 - 2) * PGSIZE :=
    Nat.mul_le_mul_right PGSIZE h1
  rw [Nat.succ_mul] at h2
  exact h2

/-- The chunk loop of `copy_out_bytes` cannot succeed once its range
reaches `TRAPFRAME`. -/
theorem copyOutAux_high (fuel : Nat) :
    ∀ (um : UserMemory) (s : MState) (dst : Nat) (bytes : List Nat)
      (r : Option MState),
      bytes.length ≤ fuel → bytes.length ≠ 0 →
      TRAPFRAME ≤ dst + bytes.length - 1 →
      copyOutAux fuel um s dst bytes = Except.ok r → r = none := by
  induction fuel with
  | zero =>
    intro um s dst bytes r hfuel hne htouch hrun
    exact absurd (Nat.le_zero.mp hfuel) hne
  | succ fuel ih =>
    intro um s dst bytes r hfuel hne htouch hrun
    simp only [copyOutAux] at hrun
    rw [if_neg hne] at hrun
    by_cases hva : TRAPFRAME ≤ pgrounddown dst
    · simp only [getSlice_high um s _ hva, Except.ok.injEq] at hrun
      exact hrun.symm
    · rcases hG : getSlice um s (pgrounddown dst) with e | o
      · rw [hG] at hrun
        cases hrun
      rcases o with _ | base
      · simp only [hG, Except.ok.injEq] at hrun
        exact hrun.symm
      · simp only [hG] at hrun
        set n := min (PGSIZE - (dst - pgrounddown dst)) bytes.length with hn
        have ha : pgrounddown dst ≤ dst := by
          rw [pgrounddown]
          exact Nat.div_mul_le_self dst PGSIZE
        have hb : dst < pgrounddown dst + PGSIZE := by
          rw [pgrounddown]
          exact Nat.lt_div_mul_add (by decide)
        have htf2 := aligned_lt_trapframe (Nat.not_le.mp hva)
        have hn2 : n ≤ bytes.length := by
          rw [hn]
          exact Nat.min_le_right _ _
        have hn3 : n ≤ PGSIZE - (dst - pgrounddown dst) := by
          rw [hn]
          exact Nat.min_le_left _ _
        have hn1 : 1 ≤ n := by
          rw [hn]
          exact Nat.le_min.mpr ⟨by omega, by omega⟩
        have hlt : n < bytes.length := by omega
        exact ih um _ (dst + n) (bytes.drop n) r
          (by rw [List.length_drop]; omega)
          (by rw [List.length_drop]; omega)
          (by rw [List.length_drop]; omega)
          hrun

/-- The chunk loop of `copy_in_bytes` cannot succeed once its range
reaches `TRAPFRAME`. -/
theorem copyInAux_high (fuel : Nat) :
    ∀ (um : UserMemory) (s : MState) (src len : Nat)
      (r : Option (List Nat)),
      len ≤ fuel → len ≠ 0 → TRAPFRAME ≤ src + len - 1 →
      copyInAux fuel um s src len = Except.ok r → r = none := by
  induction fuel with
  | zero =>
    intro um s src len r hfuel hne htouch hrun
    exact absurd (Nat.le_zero.mp hfuel) hne
  | succ fuel ih =>
    intro um s src len r hfuel hne htouch hrun
    simp only [copyInAux] at hrun
    rw [if_neg hne] at hrun
    by_cases hva : TRAPFRAME ≤ pgrounddown src
    · simp only [getSlice_high um s _ hva, Except.ok.injEq] at hrun
      exact hrun.symm
    · rcases hG : getSlice um s (pgrounddown src) with e | o
      · rw [hG] at hrun
        cases hrun
      rcases o with _ | base
      · simp only [hG, Except.ok.injEq] at hrun
        exact hrun.symm
      · simp only [hG] at hrun
        set n := min (PGSIZE - (src - pgrounddown src)) len with hn
        have ha : pgrounddown src ≤ src := by
          rw [pgrounddown]
          exact Nat.div_mul_le_self src PGSIZE
        have hb : src < pgrounddown src + PGSIZE := by
          rw [pgrounddown]
          exact Nat.lt_div_mul_add (by decide)
        have htf2 := aligned_lt_trapframe (Nat.not_le.mp hva)
        have hn2 : n ≤ len := by
          rw [hn]
          exact Nat.min_le_right _ _
        have hn3 : n ≤ PGSIZE - (src - pgrounddown src) := by
          rw [hn]
          exact Nat.min_le_left _ _
        have hn1 : 1 ≤ n := by
          rw [hn]
          exact Nat.le_min.mpr ⟨by omega, by omega⟩
        have hlt : n < len := by omega
        rcases hR : copyInAux fuel um s (src + n) (len - n) with e | o
        · rw [hR] at hrun
          cases hrun
        have ho : o = none :=
          ih um s (src + n) (len - n) o (by omega) (by omega) (by omega) hR
        subst ho
        simp only [hR, Except.ok.injEq] at hrun
        exact hrun.symm

/-- C10: the page lookup behind the user copy routines yields no page for
any address at or above `TRAPFRAME`, or for a mapped page whose leaf PTE
lacks the U bit; consequently any `copy_out_bytes`/`copy_in_bytes` whose
range touches an address at or above `TRAPFRAME` returns `Err` (the
trampoline and trap-frame pages are unreachable through them). -/
theorem c10_copy_high (um : UserMemory) (s : MState) :
    (∀ va, TRAPFRAME ≤ va → getSlice um s va = Except.ok none) ∧
    (∀ dst (bytes : List Nat) (r : Option MState), bytes.length ≠ 0 →
      TRAPFRAME ≤ dst + bytes.length - 1 →
      copyOutBytes um s dst bytes = Except.ok r → r = none) ∧
    (∀ src len (r : Option (List Nat)), len ≠ 0 →
      TRAPFRAME ≤ src + len - 1 →
      copyInBytes um s src len = Except.ok r → r = none) ∧
    (∀ va l s1, ¬ TRAPFRAME ≤ va →
      ptGetMut um.root s va false = Except.ok (some l, s1) →
      (s1.readPte l).isUser = false →
      getSlice um s va = Except.ok none) := by
  refine ⟨?_, ?_, ?_, ?_⟩
  · intro va h
    exact getSlice_high um s va h
  · intro dst bytes r hne htouch hrun
    exact copyOutAux_high bytes.length um s dst bytes r (Nat.le_refl _)
      hne htouch hrun
  · intro src len r hne htouch hrun
    exact copyInAux_high len um s src len r (Nat.le_refl _) hne htouch hrun
  · intro va l s1 hva hw hu
    rw [getSlice, if_neg hva]
    simp only [hw, hu, Bool.not_false, if_true]

/-- A page table mapping virtual page 0 to a leaf without the U bit:
page 1 is the root, 2 the level-1 and 3 the level-0 table. -/
def c10s : MState :=
  ⟨[], [(1, [(0, Pte.setTable (2 * PGSIZE))]),
       (2, [(0, Pte.setTable (3 * PGSIZE))]),
       (3, [(0, ⟨true, true, false, false, false, 9⟩)])], fun _ => 0⟩

theorem c10_copy_high_witness :
    getSlice ⟨1, 0⟩ c4s TRAPFRAME = Except.ok none ∧
    (∃ r1 : Option MState,
      copyOutBytes ⟨1, 0⟩ c4s TRAPFRAME [5] = Except.ok r1 ∧ r1 = none) ∧
    (∃ r2 : Option (List Nat),
      copyInBytes ⟨1, 0⟩ c4s TRAPFRAME 1 = Except.ok r2 ∧ r2 = none) ∧
    getSlice ⟨1, 0⟩ c10s 0 = Except.ok none :=
  ⟨(c10_copy_high ⟨1, 0⟩ c4s).1 TRAPFRAME (Nat.le_refl _),
   ⟨_, rfl, (c10_copy_high ⟨1, 0⟩ c4s).2.1 TRAPFRAME [5] _ (by decide)
      (by decide) rfl⟩,
   ⟨_, rfl, (c10_copy_high ⟨1, 0⟩ c4s).2.2.1 TRAPFRAME 1 _ (by decide)
      (by decide) rfl⟩,
   (c10_copy_high ⟨1, 0⟩ c10s).2.2.2 0 ⟨3, 0⟩ c10s (by decide) rfl
     (by decide)⟩

theorem physWriteList_out (s : MState) (base : Nat) (bs : List Nat) (a : Nat)
    (h : a < base ∨ base + bs.length ≤ a) :
    (s.physWriteList base bs).phys a = s.phys a := by
  show (if base ≤ a ∧ a < base + bs.length then bs.getD (a - base) 0
    else s.phys a) = s.phys a
  rcases h with h | h
  · rw [if_neg (fun hc => absurd (Nat.lt_of_le_of_lt hc.1 h) (Nat.lt_irrefl _))]
  · rw [if_neg (fun hc => absurd (Nat.lt_of_lt_of_le hc.2 h) (Nat.lt_irrefl _))]

theorem physWriteList_in (s : MState) (base : Nat) (bs : List Nat) (i : Nat)
    (h : i < bs.length) :
    (s.physWriteList base bs).phys (base + i) = bs.getD i 0 := by
  show (if base ≤ base + i ∧ base + i < base + bs.length then
      bs.getD (base + i - base) 0 else s.phys (base + i)) = bs.getD i 0
  rw [if_pos ⟨Nat.le_add_right _ _, Nat.add_lt_add_left h _⟩,
    Nat.add_sub_cancel_left]

/-- Without allocation, `get_table_mut` only reads the tables and leaves
the state untouched. -/
theorem getTableMut_noalloc (s s' : MState) (h : s'.tables = s.tables)
    (id index : Nat) :
    getTableMut s' id index false = ((getTableMut s id index false).1, s') := by
  unfold getTableMut
  rw [table_eq_of_tables_eq h id]
  by_cases hv : (rptGet (s.table id) index).valid
  · by_cases hta : (rptGet (s.table id) index).isTable
    · simp [hv, hta]
    · simp [hv, hta]
  · simp [hv]

/-- A non-allocating walk depends only on the tables and returns the
input state. -/
theorem ptGetMut_noalloc (root va : Nat) (s s' : MState)
    (h : s'.tables = s.tables) (hva : ¬ MAXVA ≤ va) :
    ptGetMut root s' va false =
      (ptGetMut root s va false).map (fun p => (p.1, s')) := by
  rw [ptGetMut, ptGetMut, if_neg hva, if_neg hva]
  rw [getTableMut_noalloc s s' h root (ptIndex 2 va),
    getTableMut_noalloc s s rfl root (ptIndex 2 va)]
  rcases h1 : (getTableMut s root (ptIndex 2 va) false).1 with _ | t1
  · rfl
  · dsimp only
    rw [getTableMut_noalloc s s' h t1 (ptIndex 1 va),
      getTableMut_noalloc s s rfl t1 (ptIndex 1 va)]
    rcases h2 : (getTableMut s t1 (ptIndex 1 va) false).1 with _ | t0
    · rfl
    · dsimp only
      rw [table_eq_of_tables_eq h t0]
      by_cases h3 : (rptGet (s.table t0) (ptIndex 0 va)).isTable
      · rw [if_pos h3]
        rw [if_pos h3]
        rfl
      · rw [if_neg h3]
        rw [if_neg h3]
        rfl

/-- `get_slice` depends only on the page tables, not on memory contents
or the free list. -/
theorem getSlice_phys_congr (um : UserMemory) (s s' : MState)
    (h : s'.tables = s.tables) (va : Nat) :
    getSlice um s' va = getSlice um s va := by
  rw [getSlice, getSlice]
  by_cases hTF : TRAPFRAME ≤ va
  · rw [if_pos hTF, if_pos hTF]
  rw [if_neg hTF, if_neg hTF]
  have hva : ¬ MAXVA ≤ va := by
    have h1 : TRAPFRAME < MAXVA := by decide
    omega
  rw [ptGetMut_noalloc um.root va s s' h hva]
  rcases hW : ptGetMut um.root s va false with e | ⟨o, s1⟩
  · rfl
  rcases o with _ | l
  · rfl
  · show (if !(s'.readPte l).isUser then Except.ok none
      else Except.ok (some (s'.readPte l).getPa)) = _
    have hs1 : s1 = s := by
      have h0 := ptGetMut_noalloc um.root va s s rfl hva
      rw [hW] at h0
      simp only [Except.map, Except.ok.injEq, Prod.mk.injEq, true_and] at h0
      exact h0
    have hr : s'.readPte l = s1.readPte l := by
      rw [hs1]
      unfold MState.readPte
      rw [table_eq_of_tables_eq h l.tid]
    rw [hr]

instance {e a : Type} [DecidableEq e] [DecidableEq a] :
    DecidableEq (Except e a) := fun x y =>
  match x, y with
  | Except.error e1, Except.error e2 =>
    if h : e1 = e2 then isTrue (h ▸ rfl)
    else isFalse (fun hc => h (Except.error.inj hc))
  | Except.error _, Except.ok _ => isFalse (fun hc => Except.noConfusion hc)
  | Except.ok _, Except.error _ => isFalse (fun hc => Except.noConfusion hc)
  | Except.ok a1, Except.ok a2 =>
    if h : a1 = a2 then isTrue (h ▸ rfl)
    else isFalse (fun hc => h (Except.ok.inj hc))

theorem chunkPages_step (fuel dst len n : Nat) (hlen : len ≠ 0)
    (hn : n = min (PGSIZE - (dst - pgrounddown dst)) len) :
    chunkPages (fuel + 1) dst len =
      pgrounddown dst :: chunkPages fuel (dst + n) (len - n) := by
  subst hn
  simp only [chunkPages]
  rw [if_neg hlen]

theorem copyOutAux_step (fuel : Nat) (um : UserMemory) (s : MState)
    (dst : Nat) (bytes : List Nat) (base n : Nat)
    (hlen : bytes.length ≠ 0)
    (hn : n = min (PGSIZE - (dst - pgrounddown dst)) bytes.length)
    (hgs : getSlice um s (pgrounddown dst) = Except.ok (some base)) :
    copyOutAux (fuel + 1) um s dst bytes =
      copyOutAux fuel um
        (s.physWriteList (base + (dst - pgrounddown dst)) (bytes.take n))
        (dst + n) (bytes.drop n) := by
  subst hn
  simp only [copyOutAux]
  rw [if_neg hlen]
  simp only [hgs]

theorem copyInAux_step (fuel : Nat) (um : UserMemory) (s : MState)
    (src len base n : Nat) (hlen : len ≠ 0)
    (hn : n = min (PGSIZE - (src - pgrounddown src)) len)
    (hgs : getSlice um s (pgrounddown src) = Except.ok (some base)) :
    copyInAux (fuel + 1) um s src len =
      match copyInAux fuel um s (src + n) (len - n) with
      | Except.error e => Except.error e
      | Except.ok none => Except.ok none
      | Except.ok (some rest) =>
        Except.ok (some (s.physReadList (base + (src - pgrounddown src)) n
          ++ rest)) := by
  subst hn
  simp only [copyInAux]
  rw [if_neg hlen]
  simp only [hgs]

/-- One round trip: if every page of the destination range translates,
to pairwise-distinct physical pages, then `copy_out` succeeds, the
subsequent `copy_in` of the same range succeeds and returns the bytes
written, the tables are untouched and memory outside the written pages
is untouched. -/
theorem copy_roundtrip_aux (fuel : Nat) :
    ∀ (um : UserMemory) (s : MState) (dst : Nat) (bytes : List Nat)
      (pageOf : Nat → Nat),
      bytes.length ≤ fuel →
      (∀ v ∈ chunkPages fuel dst bytes.length,
        getSlice um s v = Except.ok (some (pageOf v * PGSIZE))) →
      List.Pairwise (fun a b => pageOf a ≠ pageOf b)
        (chunkPages fuel dst bytes.length) →
      ∃ s1, copyOutAux fuel um s dst bytes = Except.ok (some s1) ∧
        copyInAux fuel um s1 dst bytes.length = Except.ok (some bytes) ∧
        s1.tables = s.tables ∧
        (∀ a, (∀ v ∈ chunkPages fuel dst bytes.length,
            a < pageOf v * PGSIZE ∨ (pageOf v + 1) * PGSIZE ≤ a) →
          s1.phys a = s.phys a) := by
  induction fuel with
  | zero =>
    intro um s dst bytes pageOf hfuel hmap hdist
    have hb0 : bytes = [] := List.length_eq_zero.mp (Nat.le_zero.mp hfuel)
    subst hb0
    exact ⟨s, rfl, rfl, rfl, fun a _ => rfl⟩
  | succ fuel ih =>
    intro um s dst bytes pageOf hfuel hmap hdist
    by_cases hlen : bytes.length = 0
    · have hb0 : bytes = [] := List.length_eq_zero.mp hlen
      subst hb0
      refine ⟨s, ?_, ?_, rfl, fun a _ => rfl⟩
      · simp [copyOutAux]
      · simp [copyInAux]
    · set n := min (PGSIZE - (dst - pgrounddown dst)) bytes.length with hn
      have ha : pgrounddown dst ≤ dst := by
        rw [pgrounddown]
        exact Nat.div_mul_le_self dst PGSIZE
      have hb : dst < pgrounddown dst + PGSIZE := by
        rw [pgrounddown]
        exact Nat.lt_div_mul_add (by decide)
      have hn2 : n ≤ bytes.length := by
        rw [hn]
        exact Nat.min_le_right _ _
      have hn3 : n ≤ PGSIZE - (dst - pgrounddown dst) := by
        rw [hn]
        exact Nat.min_le_left _ _
      have hn1 : 1 ≤ n := by
        rw [hn]
        exact Nat.le_min.mpr ⟨by omega, by omega⟩
      rw [chunkPages_step fuel dst bytes.length n hlen hn] at hmap hdist
      have hhead := hmap (pgrounddown dst) (List.mem_cons_self _ _)
      have hlen_take : (bytes.take n).length = n := by
        rw [List.length_take]
        omega
      have hmap' : ∀ v ∈ chunkPages fuel (dst + n) ((bytes.drop n).length),
          getSlice um (s.physWriteList
            (pageOf (pgrounddown dst) * PGSIZE + (dst - pgrounddown dst))
            (bytes.take n)) v = Except.ok (some (pageOf v * PGSIZE)) := by
        intro v hv
        rw [List.length_drop] at hv
        rw [getSlice_phys_congr um s (s.physWriteList
          (pageOf (pgrounddown dst) * PGSIZE + (dst - pgrounddown dst))
          (bytes.take n)) rfl v]
        exact hmap v (List.mem_cons_of_mem _ hv)
      have hdist' : List.Pairwise (fun a b => pageOf a ≠ pageOf b)
          (chunkPages fuel (dst + n) ((bytes.drop n).length)) := by
        rw [List.length_drop]
        exact (List.pairwise_cons.mp hdist).2
      obtain ⟨s1, hout1, hin1, htab1, hframe1⟩ :=
        ih um (s.physWriteList
            (pageOf (pgrounddown dst) * PGSIZE + (dst - pgrounddown dst))
            (bytes.take n))
          (dst + n) (bytes.drop n) pageOf
          (by rw [List.length_drop]; omega) hmap' hdist'
      rw [List.length_drop] at hin1 hframe1
      have hne_head := (List.pairwise_cons.mp hdist).1
      have hdisj : ∀ j, j < PGSIZE →
          ∀ v ∈ chunkPages fuel (dst + n) (bytes.length - n),
          pageOf (pgrounddown dst) * PGSIZE + j < pageOf v * PGSIZE ∨
            (pageOf v + 1) * PGSIZE ≤ pageOf (pgrounddown dst) * PGSIZE + j := by
        intro j hj v hv
        have hne := hne_head v hv
        rcases Nat.lt_or_ge (pageOf v) (pageOf (pgrounddown dst)) with h2 | h2
        · right
          exact Nat.le_trans (Nat.mul_le_mul_right PGSIZE h2)
            (Nat.le_add_right _ _)
        · left
          have h4 : pageOf (pgrounddown dst) < pageOf v :=
            Nat.lt_of_le_of_ne h2 hne
          have h5 : (pageOf (pgrounddown dst) + 1) * PGSIZE ≤
              pageOf v * PGSIZE := Nat.mul_le_mul_right PGSIZE h4
          have h6 : pageOf (pgrounddown dst) * PGSIZE + j <
              (pageOf (pgrounddown dst) + 1) * PGSIZE := by
            rw [Nat.succ_mul]
            exact Nat.add_lt_add_left hj _
          exact Nat.lt_of_lt_of_le h6 h5
      have hread1 : ∀ i, i < n →
          s1.phys (pageOf (pgrounddown dst) * PGSIZE +
            (dst - pgrounddown dst) + i) = (bytes.take n).getD i 0 := by
        intro i hi
        have hjlt : dst - pgrounddown dst + i < PGSIZE := by omega
        have h1 := hframe1 (pageOf (pgrounddown dst) * PGSIZE +
            (dst - pgrounddown dst) + i)
          (fun v hv => by
            have hd := hdisj (dst - pgrounddown dst + i) hjlt v hv
            rw [Nat.add_assoc]
            exact hd)
        rw [h1]
        exact physWriteList_in s _ (bytes.take n) i (by rw [hlen_take]; exact hi)
      have hreadlist : s1.physReadList
          (pageOf (pgrounddown dst) * PGSIZE + (dst - pgrounddown dst)) n =
          bytes.take n := by
        unfold MState.physReadList
        apply List.ext_getElem
        · simp [hlen_take]
        · intro i h1 h2
          simp only [List.getElem_map, List.getElem_range]
          rw [hread1 i (by simpa using h1)]
          exact List.getD_eq_getElem (bytes.take n) 0 h2
      have hgs1 : getSlice um s1 (pgrounddown dst) =
          Except.ok (some (pageOf (pgrounddown dst) * PGSIZE)) := by
        rw [getSlice_phys_congr um s s1 (htab1.trans rfl) (pgrounddown dst)]
        exact hhead
      refine ⟨s1, ?_, ?_, htab1.trans rfl, ?_⟩
      · rw [copyOutAux_step fuel um s dst bytes
          (pageOf (pgrounddown dst) * PGSIZE) n hlen hn hhead]
        exact hout1
      · rw [copyInAux_step fuel um s1 dst bytes.length
          (pageOf (pgrounddown dst) * PGSIZE) n hlen hn hgs1]
        simp only [hin1]
        rw [hreadlist, List.take_append_drop]
      · intro a hcond
        rw [chunkPages_step fuel dst bytes.length n hlen hn] at hcond
        have h1 := hframe1 a
          (fun v hv => hcond v (List.mem_cons_of_mem _ hv))
        have hcondh := hcond (pgrounddown dst) (List.mem_cons_self _ _)
        have hsm : (pageOf (pgrounddown dst) + 1) * PGSIZE =
            pageOf (pgrounddown dst) * PGSIZE + PGSIZE := Nat.succ_mul _ _
        have h2 := physWriteList_out s
          (pageOf (pgrounddown dst) * PGSIZE + (dst - pgrounddown dst))
          (bytes.take n) a (by rw [hlen_take]; omega)
        exact h1.trans h2

/-- C5: if every page of the range translates and distinct virtual pages
map to distinct physical pages (the `UserMemory` invariant), then
`copy_out_bytes` followed by `copy_in_bytes` over the same range succeeds
and reads back exactly the bytes written. -/
theorem c5_copy_roundtrip (um : UserMemory) (s : MState) (va : Nat)
    (bytes : List Nat) (pageOf : Nat → Nat)
    (hmap : ∀ v ∈ chunkPages bytes.length va bytes.length,
      getSlice um s v = Except.ok (some (pageOf v * PGSIZE)))
    (hdist : List.Pairwise (fun a b => pageOf a ≠ pageOf b)
      (chunkPages bytes.length va bytes.length)) :
    ∃ s1, copyOutBytes um s va bytes = Except.ok (some s1) ∧
      copyInBytes um s1 va bytes.length = Except.ok (some bytes) := by
  obtain ⟨s1, h1, h2, _, _⟩ :=
    copy_roundtrip_aux bytes.length um s va bytes pageOf (Nat.le_refl _)
      hmap hdist
  exact ⟨s1, h1, h2⟩

/-- A page table mapping virtual pages 0 and 1 to the distinct physical
pages 5 and 6 with permissions R|W|X|U. -/
def c5s : MState :=
  ⟨[], [(1, [(0, Pte.setTable (2 * PGSIZE))]),
       (2, [(0, Pte.setTable (3 * PGSIZE))]),
       (3, [(0, Pte.setEntry (5 * PGSIZE) rwxuFlags),
            (1, Pte.setEntry (6 * PGSIZE) rwxuFlags)])], fun _ => 0⟩

theorem c5_copy_roundtrip_witness :
    ∃ s1, copyOutBytes ⟨1, 2 * PGSIZE⟩ c5s (PGSIZE - 1) [9, 8] =
        Except.ok (some s1) ∧
      copyInBytes ⟨1, 2 * PGSIZE⟩ s1 (PGSIZE - 1) 2 =
        Except.ok (some [9, 8]) :=
  c5_copy_roundtrip ⟨1, 2 * PGSIZE⟩ c5s (PGSIZE - 1) [9, 8]
    (fun v => if v = 0 then 5 else 6) (by decide) (by decide)

/-- C4: for every well-formed page table, page-aligned `va`, physical
address `pa` and leaf permission `perm`, after a successful
`insert(va, pa, perm)` a `remove(va)` succeeds and a subsequent
`get_mut(va, None)` finds the entry for `va` invalid. -/
theorem c4_insert_remove_get (root va pa : Nat) (perm : PteFlags)
    (s s1 : MState) (hwf : ptWf root s) (hal : va % PGSIZE = 0)
    (hperm : (perm.r || perm.w || perm.x) = true)
    (hins : ptInsert root s va pa perm = Except.ok (true, s1)) :
    ∃ (pa2 : Nat) (s2 : MState) (l : Loc),
      ptRemove root s1 va = Except.ok (some pa2, s2) ∧
      ptGetMut root s2 va false = Except.ok (some l, s2) ∧
      (s2.readPte l).valid = false := by
  obtain ⟨l, hlidx, hread, hwalk, hover⟩ :=
    ptInsert_lookup root va pa perm s s1 hwf hal hperm hins
  have hdata : (s1.readPte l).isData = true := by
    rw [hread]
    simp [Pte.isData, Pte.setEntry, hperm]
  refine ⟨(s1.readPte l).getPa, s1.writePte l Pte.zero, l, ?_, ?_, ?_⟩
  · rw [ptRemove, hwalk]
    simp only [hdata, Bool.not_true, Bool.false_eq_true, if_false]
  · exact (hover Pte.zero rfl).1
  · rw [(hover Pte.zero rfl).2]
    rfl

/-- A tiny machine state for exercising the page-table claims: page 1 is
the (empty) root table, pages 2 and 3 are free. -/
def c4s : MState := ⟨[2, 3], [(1, [])], fun _ => 0⟩

set_option maxRecDepth 40000 in
theorem c4_insert_remove_get_witness :
    ∃ s1 : MState,
      ptInsert 1 c4s 0 (9 * PGSIZE) rwxuFlags = Except.ok (true, s1) ∧
      ∃ (pa2 : Nat) (s2 : MState) (l : Loc),
        ptRemove 1 s1 0 = Except.ok (some pa2, s2) ∧
        ptGetMut 1 s2 0 false = Except.ok (some l, s2) ∧
        (s2.readPte l).valid = false :=
  ⟨_, rfl,
    c4_insert_remove_get 1 0 (9 * PGSIZE) rwxuFlags c4s _ (by decide)
      (by decide) (by decide) rfl⟩

end Rv
